import Mathlib

/-!
# ethchain: the contract virtual machine (src/ethchain/vm.go)

A shallow embedding of `Vm.RunClosure`, the fetch / gas-check / dispatch loop of the
early eth-go virtual machine, followed by theorems about single instructions and runs.

Every value the interpreter handles is a Go `*big.Int`: a pointer to a mutable
arbitrary-precision integer.  The stack stores those pointers, `base` is one such object
shared by most arithmetic cases, `pc` is one too, and `x.Sub(Pow256, x)` or
`pc.Add(pc, ethutil.Big1)` overwrite an object in place.  The embedding therefore keeps
an explicit heap of `big.Int` objects (`Heap`) and the stack is a list of references.

The arithmetic of `math/big` is the one documented by the Go library: `Add`, `Sub`, `Mul`
are exact, `Div` and `Mod` are Euclidean and raise a run-time panic on a zero divisor,
`Exp(x, y, m)` is `x**y mod |m|` and is 1 for `y <= 0`.
-/

set_option maxRecDepth 100000

namespace Ethchain

/-! ## big.Int objects -/

/-- Identity of a `big.Int` object (a Go pointer). -/
abbrev Ref := Nat

/-- The `big.Int` objects allocated so far: the value each one holds and the next unused
identity. -/
structure Heap where
  val : Ref → Int
  next : Ref

/-- Overwrite the value of object `r` (the receiver of `z.Add`, `z.Sub`, ...). -/
def Heap.set (h : Heap) (r : Ref) (v : Int) : Heap :=
  { h with val := fun i => if i = r then v else h.val i }

/-- Allocate a new object holding `v` (`new(big.Int)`, `big.NewInt`, `ethutil.BigD`). -/
def Heap.alloc (h : Heap) (v : Int) : Ref × Heap :=
  (h.next, { val := fun i => if i = h.next then v else h.val i, next := h.next + 1 })

/-- The constant `var Pow256 = ethutil.BigPow(2, 256)`. It is only ever passed as an
argument, never pushed on a stack nor used as a receiver, so its value is fixed. -/
def Pow256 : Int := 2 ^ 256

/-- The per-instruction fee: `fee := new(big.Int); fee.Add(fee, big.NewInt(1000))`. -/
def fee : Int := 1000

/-- Go's `(*big.Int).Int64`: the low 64 bits of the magnitude read as an `int64`, negated
(with wrap-around) for a negative number. -/
def Int64 (x : Int) : Int :=
  let lo : Int := ((x.natAbs % 2 ^ 64 : Nat) : Int)
  let v : Int := if lo < 2 ^ 63 then lo else lo - 2 ^ 64
  if x < 0 then (if v = -(2 ^ 63) then v else -v) else v

/-- Go's conversion `int64(u)` of a `uint64`. -/
def int64OfUint64 (u : Nat) : Int :=
  let lo : Int := ((u % 2 ^ 64 : Nat) : Int)
  if lo < 2 ^ 63 then lo else lo - 2 ^ 64

/-- Go's `(*big.Int).Exp(x, y, m)` for a non-zero modulus: 1 for `y <= 0`, otherwise
`x**y mod |m|`. -/
def bigExp (x y m : Int) : Int :=
  if y ≤ 0 then 1 else (x ^ y.toNat) % m

/-! ## Faults -/

/-- The ways an invocation can be aborted instead of returning bytes. `RunClosure` has no
`recover`, so each of them unwinds out of it as a Go run-time panic. -/
inductive Panic where
  | stackUnderflow
  | divisionByZero
  | nilContract
  | sliceBounds
  deriving DecidableEq

/-! ## Stack -/

/-- Modelled from the spec: the `Stack` type (its file is not under src/), section 4.1:
an ordered sequence with push and pop at one end only; the elements are the `*big.Int`
handed to `Push`. The head of the list is the top. -/
abbrev Stack := List Ref

/-- Modelled from the spec: `push(Word)` appends, no capacity limit. -/
def Stack.Push (st : Stack) (r : Ref) : Stack := r :: st

/-- Modelled from the spec: `pop() -> Word` removes and returns the top element and
faults with `StackUnderflow` if the stack is empty. -/
def Stack.Pop : Stack → Except Panic (Ref × Stack)
  | top :: rest => .ok (top, rest)
  | [] => .error .stackUnderflow

/-- Modelled from the spec: `pop2()` pops two elements for binary operators and faults
like `pop` when fewer than two are present. Which of the two results is the top is fixed
by the caller in vm.go: `val, mStart := stack.Popn()` under the comment "Store the value
at stack top-1 in to memory at location stack top", and `oSWAP`, which pushes the second
result and then the first. So the first result is the element below the top and the
second result is the top. -/
def Stack.Popn : Stack → Except Panic (Ref × Ref × Stack)
  | top :: below :: rest => .ok (below, top, rest)
  | _ => .error .stackUnderflow

/-- Modelled from the spec: `peek() -> Word` returns the top without removing it and
faults the same way as `pop`. -/
def Stack.Peek : Stack → Except Panic Ref
  | top :: _ => .ok top
  | [] => .error .stackUnderflow

/-! ## Memory -/

/-- Modelled from the spec: the `Memory` type (not under src/), section 4.2: the
materialized bytes of a linear, zero-initialized, growing byte store. -/
abbrev Memory := List Nat

/-- Modelled from the spec: `get(offset, length)` returns exactly `length` bytes starting
at `offset`, reading zero beyond the materialized region. -/
def Memory.Get (m : Memory) (offset length : Nat) : List Nat :=
  (List.range length).map (fun i => m.getD (offset + i) 0)

/-- Modelled from the spec: `set(offset, length, data)` writes `length` bytes starting at
`offset`, taking them from `data` (zero where `data` is shorter, ignoring what is longer)
and growing the materialized region as needed. -/
def Memory.Set (m : Memory) (offset length : Nat) (data : List Nat) : Memory :=
  if length = 0 then m
  else
    let grown := m ++ List.replicate (offset + length - m.length) 0
    grown.take offset ++ (List.range length).map (fun i => data.getD i 0)
      ++ grown.drop (offset + length)

/-- Modelled from the spec: `len()`, the current materialized length. -/
def Memory.Len (m : Memory) : Nat := m.length

/-- The calls `mem.Get(a.Int64(), b.Int64())` of vm.go. The spec defines `get` for
non-negative offsets and lengths only; a negative `int64` is a Go slice-bounds panic. -/
def memGet (m : Memory) (offset length : Int) : Except Panic (List Nat) :=
  if offset < 0 ∨ length < 0 then .error .sliceBounds
  else .ok (Memory.Get m offset.toNat length.toNat)

/-- The calls `mem.Set(a.Int64(), n, data)` of vm.go, with the same domain as `memGet`. -/
def memSet (m : Memory) (offset length : Int) (data : List Nat) : Except Panic Memory :=
  if offset < 0 ∨ length < 0 then .error .sliceBounds
  else .ok (Memory.Set m offset.toNat length.toNat data)

/-- Modelled from the spec: `ethutil.BigD` (not under src/): the unsigned big-endian value
of a byte string. -/
def BigD (bytes : List Nat) : Int :=
  bytes.foldl (fun acc b => acc * 256 + (b : Int)) 0

/-- Modelled from the spec: `ethutil.BigToBytes(v, 256)` (not under src/): the 256-bit
big-endian encoding of the value, 32 bytes. -/
def BigToBytes (v : Int) : List Nat :=
  (List.range 32).map (fun i => (v.natAbs / 256 ^ (31 - i)) % 256)

/-! ## Opcodes, closures, world state -/

/-- The case labels of the `switch op` in `RunClosure`; `invalid` stands for every value
that reaches `default`. -/
inductive OpCode where
  | oLOG | oSTOP
  | oADD | oSUB | oMUL | oDIV | oSDIV | oMOD | oSMOD | oEXP | oNEG | oLT | oGT | oNOT
  | oAND | oOR | oXOR | oBYTE
  | oSHA3
  | oADDRESS | oBALANCE | oORIGIN | oCALLER | oCALLVALUE | oCALLDATA | oCALLDATASIZE
  | oGASPRICE
  | oPREVHASH | oCOINBASE | oTIMESTAMP | oNUMBER | oDIFFICULTY | oGASLIMIT
  | oPUSH | oPOP | oDUP | oSWAP | oMLOAD | oMSTORE | oMSTORE8 | oSLOAD | oSSTORE
  | oJUMP | oJUMPI | oPC | oMSIZE
  | oCALL | oRETURN | oSUICIDE
  | invalid
  deriving DecidableEq

/-- The `RuntimeVars` struct of vm.go (`txData` is never read by `RunClosure`). `diff` is
a `*big.Int`. -/
structure RuntimeVars where
  origin : List Nat
  blockNumber : Nat
  prevHash : List Nat
  coinbase : List Nat
  time : Int
  diff : Ref

/-- Modelled from the spec: the State collaborator (section 6): `GetContract(address)`
is non-null exactly where `contracts` is true, and `storage` holds every contract's
persistent slots. `closure.GetMem` reads this store both for the instruction at the
program counter and for `oSLOAD`; `closure.SetMem` writes it. -/
structure State where
  contracts : Nat → Bool
  storage : Nat → Int → Int

/-- Modelled from the spec: the `Closure` type (section 3; not under src/): the contract
it executes, the caller, the gas and value objects and the input bytes. -/
structure Closure where
  object : Nat
  callee : Nat
  Gas : Ref
  Value : Ref
  Args : List Nat

/-- What is fixed for a whole run: the `vars` of the `Vm`, the numbering of the opcodes
(`OpCode(val.Uint())`; the constants are not under src/, so the numbering is a parameter)
and the two shared objects `ethutil.BigTrue`, `ethutil.BigFalse`. -/
structure Env where
  vars : RuntimeVars
  opOf : Int → OpCode
  BigTrue : Ref
  BigFalse : Ref

/-- The local variables of one activation of `RunClosure` (`closure`, `mem`, `stack`,
`pc`, `step`, `base`) together with the objects and the state they refer to. -/
structure VmState where
  closure : Closure
  mem : Memory
  stack : Stack
  pc : Ref
  step : Nat
  base : Ref
  heap : Heap
  state : State

/-- Which `return` of `RunClosure` was taken. -/
inductive Halt where
  | outOfGas
  | stop
  | ret
  deriving DecidableEq

/-- How a run of `RunClosure` ends: it returns bytes, it is aborted by a panic, or the
embedding ran out of fuel (the Go loop is still running). -/
inductive Result where
  | returned (why : Halt) (bytes : List Nat) (final : VmState)
  | panicked (p : Panic)
  | outOfFuel

/-- The effect of one iteration of the loop: it goes on, it returns, it panics, or a
nested activation ran out of fuel. A `return closure.Return(ret)` is `halted`: following
section 4.4 of the specification, `Return` is the single exit point and hands back `ret`
(the `Closure` type is not under src/). -/
inductive Outcome where
  | next (s : VmState)
  | halted (why : Halt) (bytes : List Nat) (s : VmState)
  | panic (p : Panic)
  | outOfFuel

/-- Modelled from the spec: `closure.GetMem(x)`: the slot `x` of the contract's store; a
slot never written reads as zero. -/
def GetMem (s : VmState) (x : Ref) : Int :=
  s.state.storage s.closure.object (s.heap.val x)

/-- Modelled from the spec: `closure.SetMem(loc, ethutil.NewValue(val))`: a point write of
the number held by `val` into the contract's store. -/
def SetMem (s : VmState) (loc val : Ref) : State :=
  { s.state with
    storage := fun a k =>
      if a = s.closure.object ∧ k = s.heap.val loc then s.heap.val val
      else s.state.storage a k }

/-! ## The interpreter -/

/-- Modelled from the spec: `vm.state.GetContract(addr.Bytes())` (the State collaborator,
section 6; not under src/): the contract stored under the address, or null. `Bytes` is the
big-endian magnitude of the word, so the address is the absolute value. -/
def GetContract (st : State) (addr : Int) : Option Nat :=
  if st.contracts addr.natAbs then some addr.natAbs else none

/-- Modelled from the spec: `NewClosure(closure, contract, vm.state, gas, value)` followed
by `closure.Call(vm, args)` (neither is under src/): the child closure carries the
caller's identity, the gas and value objects popped by the parent and the input bytes, and
the interpreter `run` is started on it. Section 6: the reference makes the call
unconditionally and faults on a null contract. -/
def callContract (run : Closure → Heap → State → Result) (parent : Closure)
    (contract : Option Nat) (gas value : Ref) (args : List Nat) (h : Heap) (st : State) :
    Result :=
  match contract with
  | none => .panicked .nilContract
  | some obj =>
      run { object := obj, callee := parent.object, Gas := gas, Value := value,
            Args := args } h st

/-- The statement `x, y := stack.Popn()` followed by the rest of a case. -/
def withPopn (st : Stack) (k : Ref → Ref → Stack → Outcome) : Outcome :=
  match Stack.Popn st with
  | .ok (x, y, rest) => k x y rest
  | .error p => .panic p

/-- The statement `x := stack.Pop()` followed by the rest of a case. -/
def withPop (st : Stack) (k : Ref → Stack → Outcome) : Outcome :=
  match Stack.Pop st with
  | .ok (x, rest) => k x rest
  | .error p => .panic p

/-- Push a newly allocated object holding `v`. -/
def pushNew (s : VmState) (st : Stack) (v : Int) : VmState :=
  { s with heap := (s.heap.alloc v).2, stack := Stack.Push st (s.heap.alloc v).1 }

/-- The in-place sign fold of `oSDIV` and `oSMOD`:
`if x.Cmp(Pow256) > 0 { x.Sub(Pow256, x) }`. -/
def foldSign (h : Heap) (x : Ref) : Heap :=
  if h.val x > Pow256 then h.set x (Pow256 - h.val x) else h

/-- The `switch op` of `RunClosure`, one case per opcode. `call` is the nested activation
`closure.Call(vm, args)` of `oCALL`. -/
def execOp (env : Env) (call : Closure → Heap → State → Result) (op : OpCode)
    (s : VmState) : Outcome :=
  match op with
  | .oLOG => .next s
  | .oSTOP => .halted .stop [] s
  | .oADD => withPopn s.stack fun x y rest =>
      let h1 := s.heap.set s.base (s.heap.val x + s.heap.val y)
      let h2 := h1.set s.base (h1.val s.base % Pow256)
      .next { s with heap := h2, stack := Stack.Push rest s.base }
  | .oSUB => withPopn s.stack fun x y rest =>
      let h1 := s.heap.set s.base (s.heap.val x - s.heap.val y)
      let h2 := h1.set s.base (h1.val s.base % Pow256)
      .next { s with heap := h2, stack := Stack.Push rest s.base }
  | .oMUL => withPopn s.stack fun x y rest =>
      let h1 := s.heap.set s.base (s.heap.val x * s.heap.val y)
      let h2 := h1.set s.base (h1.val s.base % Pow256)
      .next { s with heap := h2, stack := Stack.Push rest s.base }
  | .oDIV => withPopn s.stack fun x y rest =>
      if s.heap.val y = 0 then .panic .divisionByZero
      else
        .next { s with heap := s.heap.set s.base (s.heap.val x / s.heap.val y),
                       stack := Stack.Push rest s.base }
  | .oSDIV => withPopn s.stack fun x y rest =>
      let h1 := foldSign s.heap x
      let h2 := foldSign h1 y
      if h2.val y = 0 then .panic .divisionByZero
      else
        let z := (h2.alloc (h2.val x / h2.val y)).1
        let h3 := (h2.alloc (h2.val x / h2.val y)).2
        .next { s with heap := foldSign h3 z, stack := Stack.Push rest z }
  | .oMOD => withPopn s.stack fun x y rest =>
      if s.heap.val y = 0 then .panic .divisionByZero
      else
        .next { s with heap := s.heap.set s.base (s.heap.val x % s.heap.val y),
                       stack := Stack.Push rest s.base }
  | .oSMOD => withPopn s.stack fun x y rest =>
      let h1 := foldSign s.heap x
      let h2 := foldSign h1 y
      if h2.val y = 0 then .panic .divisionByZero
      else
        let z := (h2.alloc (h2.val x % h2.val y)).1
        let h3 := (h2.alloc (h2.val x % h2.val y)).2
        .next { s with heap := foldSign h3 z, stack := Stack.Push rest z }
  | .oEXP => withPopn s.stack fun x y rest =>
      .next { s with heap := s.heap.set s.base (bigExp (s.heap.val x) (s.heap.val y) Pow256),
                     stack := Stack.Push rest s.base }
  | .oNEG => withPop s.stack fun x rest =>
      .next { s with heap := s.heap.set s.base (Pow256 - s.heap.val x),
                     stack := Stack.Push rest s.base }
  | .oLT => withPopn s.stack fun x y rest =>
      if s.heap.val x < s.heap.val y then .next { s with stack := Stack.Push rest env.BigTrue }
      else .next { s with stack := Stack.Push rest env.BigFalse }
  | .oGT => withPopn s.stack fun x y rest =>
      if s.heap.val x > s.heap.val y then .next { s with stack := Stack.Push rest env.BigTrue }
      else .next { s with stack := Stack.Push rest env.BigFalse }
  | .oNOT => withPopn s.stack fun x y rest =>
      if s.heap.val x ≠ s.heap.val y then .next { s with stack := Stack.Push rest env.BigTrue }
      else .next { s with stack := Stack.Push rest env.BigFalse }
  | .oAND => .next s
  | .oOR => .next s
  | .oXOR => .next s
  | .oBYTE => .next s
  | .oSHA3 => .next s
  | .oADDRESS => .next (pushNew s s.stack (s.closure.object : Int))
  | .oBALANCE => .next { s with stack := Stack.Push s.stack s.closure.Value }
  | .oORIGIN => .next (pushNew s s.stack (BigD env.vars.origin))
  | .oCALLER => .next (pushNew s s.stack (s.closure.callee : Int))
  | .oCALLVALUE => .next { s with stack := Stack.Push s.stack s.closure.Value }
  | .oCALLDATA => withPop s.stack fun offset rest =>
      match memSet s.mem (Int64 (s.heap.val offset)) (s.closure.Args.length : Int)
          s.closure.Args with
      | .ok m => .next { s with mem := m, stack := rest }
      | .error p => .panic p
  | .oCALLDATASIZE => .next (pushNew s s.stack (s.closure.Args.length : Int))
  | .oGASPRICE => .next s
  | .oPREVHASH => .next (pushNew s s.stack (BigD env.vars.prevHash))
  | .oCOINBASE => .next (pushNew s s.stack (BigD env.vars.coinbase))
  | .oTIMESTAMP => .next (pushNew s s.stack env.vars.time)
  | .oNUMBER => .next (pushNew s s.stack (int64OfUint64 env.vars.blockNumber))
  | .oDIFFICULTY => .next { s with stack := Stack.Push s.stack env.vars.diff }
  | .oGASLIMIT => .next s
  | .oPUSH =>
      let s1 := { s with heap := s.heap.set s.pc (s.heap.val s.pc + 1) }
      .next (pushNew s1 s1.stack (GetMem s1 s1.pc))
  | .oPOP => withPop s.stack fun _ rest => .next { s with stack := rest }
  | .oDUP =>
      match Stack.Peek s.stack with
      | .ok top => .next { s with stack := Stack.Push s.stack top }
      | .error p => .panic p
  | .oSWAP => withPopn s.stack fun x y rest =>
      .next { s with stack := Stack.Push (Stack.Push rest y) x }
  | .oMLOAD => withPop s.stack fun offset rest =>
      match memGet s.mem (Int64 (s.heap.val offset)) 32 with
      | .ok bytes => .next (pushNew s rest (BigD bytes))
      | .error p => .panic p
  | .oMSTORE => withPopn s.stack fun val mStart rest =>
      match memSet s.mem (Int64 (s.heap.val mStart)) 32 (BigToBytes (s.heap.val val)) with
      | .ok m => .next { s with mem := m, stack := rest }
      | .error p => .panic p
  | .oMSTORE8 => withPopn s.stack fun val mStart rest =>
      -- base.And(val, 0xff): the low eight bits, which is the residue modulo 256
      let h1 := s.heap.set s.base (s.heap.val val % 256)
      match memSet s.mem (Int64 (h1.val mStart)) 32 (BigToBytes (h1.val s.base)) with
      | .ok m => .next { s with heap := h1, mem := m, stack := rest }
      | .error p => .panic p
  | .oSLOAD => withPop s.stack fun loc rest => .next (pushNew s rest (GetMem s loc))
  | .oSSTORE => withPopn s.stack fun val loc rest =>
      .next { s with state := SetMem s loc val, stack := rest }
  | .oJUMP => withPop s.stack fun dest rest => .next { s with pc := dest, stack := rest }
  | .oJUMPI => withPopn s.stack fun pos cond rest =>
      if s.heap.val cond > 0 then .next { s with pc := pos, stack := rest }
      else .next { s with stack := rest }
  | .oPC => .next { s with stack := Stack.Push s.stack s.pc }
  | .oMSIZE => .next (pushNew s s.stack (Memory.Len s.mem : Int))
  | .oCALL =>
      withPopn s.stack fun retSize retOffset st1 =>
      withPopn st1 fun inSize inOffset st2 =>
      match memGet s.mem (Int64 (s.heap.val inOffset)) (Int64 (s.heap.val inSize)) with
      | .error p => .panic p
      | .ok args =>
      withPopn st2 fun gas value st3 =>
      withPop st3 fun addr st4 =>
      match callContract call s.closure (GetContract s.state (s.heap.val addr)) gas value
          args s.heap s.state with
      | .panicked p => .panic p
      | .outOfFuel => .outOfFuel
      | .returned _ ret child =>
          match memSet s.mem (Int64 (child.heap.val retOffset))
              (Int64 (child.heap.val retSize)) ret with
          | .ok m => .next { s with mem := m, stack := st4, heap := child.heap,
                                    state := child.state }
          | .error p => .panic p
  | .oRETURN => withPopn s.stack fun size offset rest =>
      match memGet s.mem (Int64 (s.heap.val offset)) (Int64 (s.heap.val size)) with
      | .ok bytes => .halted .ret bytes { s with stack := rest }
      | .error p => .panic p
  | .oSUICIDE => .next s
  | .invalid => .next s

/-- The statement `pc.Add(pc, ethutil.Big1)` that ends every iteration. -/
def pcAdd (s : VmState) : VmState :=
  { s with heap := s.heap.set s.pc (s.heap.val s.pc + 1) }

/-- The opcode fetched at the head of an iteration: `OpCode(closure.GetMem(pc).Uint())`. -/
def fetch (env : Env) (s : VmState) : OpCode := env.opOf (GetMem s s.pc)

/-- One iteration of the `for` loop of `RunClosure`: count the step, fetch, compare the
gas with the fee, dispatch, advance the program counter. -/
def loopBody (env : Env) (call : Closure → Heap → State → Result) (s : VmState) : Outcome :=
  let s1 := { s with step := s.step + 1 }
  if s1.heap.val s1.closure.Gas < fee then .halted .outOfGas [] s1
  else
    match execOp env call (fetch env s1) s1 with
    | .next s2 => .next (pcAdd s2)
    | o => o

/-- The local variables `RunClosure` starts with: empty memory and stack, `pc` and `base`
two new objects holding zero, `step` zero. -/
def initState (c : Closure) (h : Heap) (st : State) : VmState :=
  { closure := c, mem := [], stack := [], pc := (h.alloc 0).1, step := 0,
    base := ((h.alloc 0).2.alloc 0).1, heap := ((h.alloc 0).2.alloc 0).2, state := st }

/-- The `for` loop, cut off after `n` iterations. -/
def RunLoop (env : Env) (call : Closure → Heap → State → Result) : Nat → VmState → Result
  | 0, _ => .outOfFuel
  | n + 1, s =>
      match loopBody env call s with
      | .next s1 => RunLoop env call n s1
      | .halted why bytes s1 => .returned why bytes s1
      | .panic p => .panicked p
      | .outOfFuel => .outOfFuel

/-- The function `RunClosure`: `fuel` bounds both the number of iterations of each
activation and the nesting depth of `oCALL`. -/
def RunClosure (env : Env) : Nat → Closure → Heap → State → Result
  | 0, _, _, _ => .outOfFuel
  | n + 1, c, h, st => RunLoop env (RunClosure env n) (n + 1) (initState c h st)

/-! ## Observations and sample inputs -/

/-- A Word: an integer in `[0, 2^256)`. -/
def isWord (v : Int) : Prop := 0 ≤ v ∧ v < Pow256

instance (v : Int) : Decidable (isWord v) := by
  unfold isWord; exact inferInstance

/-- The state in which the dispatch of an iteration runs: `step++` has been executed. -/
def counted (s : VmState) : VmState := { s with step := s.step + 1 }

/-- The program counter value at which the next `closure.GetMem(pc)` fetches. -/
def VmState.pcVal (s : VmState) : Int := s.heap.val s.pc

/-- The remaining gas `closure.Gas` of the running closure. -/
def VmState.gas (s : VmState) : Int := s.heap.val s.closure.Gas

/-- The numbers held by the objects on the stack, top first. -/
def VmState.stackVals (s : VmState) : List Int := s.stack.map s.heap.val

/-- The state after an iteration, when the loop goes on. -/
def Outcome.next? : Outcome → Option VmState
  | .next s => some s
  | _ => none

/-- The panic raised by an iteration, if any. -/
def Outcome.panic? : Outcome → Option Panic
  | .panic p => some p
  | _ => none

/-- The value held by the object a case of the switch leaves on top of the stack, read
right after the case (before `pc.Add(pc, ethutil.Big1)`). -/
def pushed (env : Env) (call : Closure → Heap → State → Result) (op : OpCode)
    (s : VmState) : Option Int :=
  match execOp env call op s with
  | .next s1 =>
      match s1.stack with
      | top :: _ => some (s1.heap.val top)
      | [] => none
  | _ => none

/-- Which `return` ended a run. -/
def Result.why? : Result → Option Halt
  | .returned why _ _ => some why
  | _ => none

/-- The bytes a run returned. -/
def Result.bytes? : Result → Option (List Nat)
  | .returned _ bytes _ => some bytes
  | _ => none

/-- The local state in which a run returned. -/
def Result.final? : Result → Option VmState
  | .returned _ _ s => some s
  | _ => none

/-- The panic that aborted a run, if any. -/
def Result.panic? : Result → Option Panic
  | .panicked p => some p
  | _ => none

/-- The arbitrary-precision reference result of `oADD`, `oSUB`, `oMUL` before reduction. -/
def exactResult (op : OpCode) (a b : Int) : Int :=
  match op with
  | .oADD => a + b
  | .oSUB => a - b
  | _ => a * b

/-- The signed reading of a Word in the words of the specification: a Word above `2^255`
stands for the negative number `w - 2^256`. It is used to state what the specification
asks of `oSDIV` and `oSMOD`; the code does not compute it. -/
def signedRef (w : Int) : Int := if w > 2 ^ 255 then w - Pow256 else w

/-- A numbering of the opcodes used for the concrete runs below. The constants are not
under src/; the ranges follow the range comments of the switch (0x10, 0x20, ... 0x60) and
section 4.3 of the specification, the order inside a range is the order of the cases.
Every general theorem holds for any numbering. -/
def sampleOpOf (v : Int) : OpCode :=
  if v < 0 then .invalid
  else
    match v.toNat with
    | 0x00 => .oSTOP | 0x01 => .oADD | 0x02 => .oSUB | 0x03 => .oMUL | 0x04 => .oDIV
    | 0x05 => .oSDIV | 0x06 => .oMOD | 0x07 => .oSMOD | 0x08 => .oEXP | 0x09 => .oNEG
    | 0x0a => .oLT | 0x0b => .oGT | 0x0c => .oNOT
    | 0x10 => .oAND | 0x11 => .oOR | 0x12 => .oXOR | 0x13 => .oBYTE
    | 0x20 => .oSHA3
    | 0x30 => .oADDRESS | 0x31 => .oBALANCE | 0x32 => .oORIGIN | 0x33 => .oCALLER
    | 0x34 => .oCALLVALUE | 0x35 => .oCALLDATA | 0x36 => .oCALLDATASIZE | 0x37 => .oGASPRICE
    | 0x40 => .oPREVHASH | 0x41 => .oCOINBASE | 0x42 => .oTIMESTAMP | 0x43 => .oNUMBER
    | 0x44 => .oDIFFICULTY | 0x45 => .oGASLIMIT
    | 0x50 => .oPUSH | 0x51 => .oPOP | 0x52 => .oDUP | 0x53 => .oSWAP | 0x54 => .oMLOAD
    | 0x55 => .oMSTORE | 0x56 => .oMSTORE8 | 0x57 => .oSLOAD | 0x58 => .oSSTORE
    | 0x59 => .oJUMP | 0x5a => .oJUMPI | 0x5b => .oPC | 0x5c => .oMSIZE
    | 0x60 => .oCALL | 0x61 => .oRETURN
    | 0x7f => .oSUICIDE
    | 0xfe => .oLOG
    | _ => .invalid

/-- Sample run-time variables and shared objects: object 0 is `BigTrue`, object 1 is
`BigFalse`, object 2 is the difficulty. -/
def sampleEnv : Env :=
  { vars := { origin := [], blockNumber := 0, prevHash := [], coinbase := [], time := 0,
              diff := 2 },
    opOf := sampleOpOf, BigTrue := 0, BigFalse := 1 }

/-- Sample objects: `BigTrue` holds 1, object 3 is the gas of the sample closure, object 4
its value; everything else holds 0. -/
def sampleHeap (gas : Int) : Heap :=
  { val := fun i => if i = 0 then 1 else if i = 3 then gas else 0, next := 5 }

/-- The sample closure: contract 1 called by account 0, no input bytes. -/
def sampleClosure : Closure :=
  { object := 1, callee := 0, Gas := 3, Value := 4, Args := [] }

/-- A world with the single contract 1 whose store holds `code` from slot 0 on. -/
def codeState (code : List Int) : State :=
  { contracts := fun a => a == 1,
    storage := fun a k => if a = 1 ∧ 0 ≤ k then code.getD k.toNat 0 else 0 }

/-- Push new objects holding the given numbers, the last one ending on top. -/
def pushAll (s : VmState) : List Int → VmState
  | [] => s
  | v :: vs => pushAll (pushNew s s.stack v) vs

/-- The sample closure at the start of its code with the given numbers on the stack. -/
def sampleState (code : List Int) (gas : Int) (vals : List Int) : VmState :=
  pushAll (initState sampleClosure (sampleHeap gas) (codeState code)) vals

/-- A nested activation that never resumes (no sample below executes `oCALL`). -/
def noCall : Closure → Heap → State → Result := fun _ _ _ => .outOfFuel

/-- How many operands the case of an opcode takes from the stack with `Pop`, `Popn` or
`Peek` (`oCALL`: three `Popn` and one `Pop`). -/
def popCount : OpCode → Nat
  | .oADD | .oSUB | .oMUL | .oDIV | .oSDIV | .oMOD | .oSMOD | .oEXP => 2
  | .oNEG => 1
  | .oLT | .oGT | .oNOT => 2
  | .oCALLDATA => 1
  | .oPOP | .oDUP => 1
  | .oSWAP => 2
  | .oMLOAD => 1
  | .oMSTORE | .oMSTORE8 => 2
  | .oSLOAD => 1
  | .oSSTORE => 2
  | .oJUMP => 1
  | .oJUMPI => 2
  | .oCALL => 7
  | .oRETURN => 2
  | _ => 0

/-- Scenario A in the sample numbering: `PUSH 5, PUSH 3, ADD, PUSH 0, MSTORE, PUSH 32,
PUSH 0, RETURN`. The operand of a `PUSH` is the next slot of the code. -/
def scenarioA : List Int :=
  [0x50, 5, 0x50, 3, 0x01, 0x50, 0, 0x55, 0x50, 32, 0x50, 0, 0x61]

/-- A loop in the sample numbering: `MSIZE` in slot 0, then `PUSH 0, JUMP` in slots 1 to
3; the jump lands in slot 1. -/
def spinCode : List Int := [0x5c, 0x50, 0, 0x59]

/-- A call of the contract 9, which does not exist in `codeState`, in the sample
numbering: the address, gas 5000, value 0, input size 0 and offset 0, return size 32 and
offset 0 are pushed, then `CALL`, then `STOP`. -/
def callMissing : List Int :=
  [0x50, 9, 0x50, 5000, 0x50, 0, 0x50, 0, 0x50, 0, 0x50, 32, 0x50, 0, 0x60, 0x00]

/-- The two additions of C20 in the sample numbering: `PUSH 1, PUSH 2, ADD, PUSH 3,
PUSH 4, ADD, STOP`. -/
def twoAdds : List Int := [0x50, 1, 0x50, 2, 0x01, 0x50, 3, 0x50, 4, 0x01, 0x00]

/-- The bytes `data` zero-padded or truncated to `n` bytes, as `Memory.Set` takes them. -/
def fit (n : Nat) (data : List Nat) : List Nat :=
  (List.range n).map (fun i => data.getD i 0)

/-- The state after an iteration that passes the gas check and goes on: the case of the
fetched opcode followed by `pc.Add(pc, ethutil.Big1)`. -/
def advance (env : Env) (call : Closure → Heap → State → Result) (s : VmState) : VmState :=
  match execOp env call (fetch env s) (counted s) with
  | .next s2 => pcAdd s2
  | _ => s

/-- What holds each time the run of `spinCode` is about to fetch slot 1: the closure is
the sample closure on the unchanged code, its gas object (object 3) still holds at least
the fee, and the program counter is another, already allocated object holding 1. -/
def spinInv (s : VmState) : Prop :=
  s.closure.object = 1 ∧ s.closure.Gas = 3
    ∧ s.state.storage 1 1 = 0x50 ∧ s.state.storage 1 2 = 0 ∧ s.state.storage 1 3 = 0x59
    ∧ fee ≤ s.heap.val 3 ∧ 3 < s.heap.next ∧ s.pc ≠ 3 ∧ s.pc < s.heap.next
    ∧ s.heap.val s.pc = 1

/-- The number an object holds when a run has returned. -/
def Result.valAfter (r : Result) (x : Ref) : Option Int :=
  r.final?.map (fun f => f.heap.val x)

/-- A world with two contracts: contract 1 holds `code1`, contract 2 holds `code2`. -/
def twoContracts (code1 code2 : List Int) : State :=
  { contracts := fun a => a == 1 || a == 2,
    storage := fun a k =>
      if a = 1 ∧ 0 ≤ k then code1.getD k.toNat 0
      else if a = 2 ∧ 0 ≤ k then code2.getD k.toNat 0 else 0 }

/-- The sample closure at the start of the code of contract 1 in the world `st`, with the
given numbers on the stack. -/
def sampleStateIn (st : State) (gas : Int) (vals : List Int) : VmState :=
  pushAll (initState sampleClosure (sampleHeap gas) st) vals

/-- The code `PC, 0xee` in the sample numbering: `oPC`, then a value that is no opcode. -/
def pcThenUnknown : List Int := [0x5b, 0xee]

/-- A parent that leaves the object it passes as call value on its stack, in the sample
numbering: `PUSH 2, DUP, PUSH 2, SWAP, PUSH 5000, SWAP`, then input size 0 and offset 0,
return size 0 and offset 0, and the last instruction `last` (`CALL` or, to look at the
stack before the call, `STOP`), then `STOP`. Before `last` the stack holds, top first:
return offset, return size, input offset, input size, the value object, the gas, the
address 2, and the value object once more. -/
def keepsValue (last : Int) : List Int :=
  [0x50, 2, 0x52, 0x50, 2, 0x53, 0x50, 5000, 0x53, 0x50, 0, 0x50, 0, 0x50, 0, 0x50, 0,
   last, 0x00]

/-- A child that jumps to its call value, in the sample numbering: `CALLVALUE, JUMP`;
every slot after them holds 0, which is `STOP`. -/
def jumpsToValue : List Int := [0x34, 0x59]

/-- A parent whose return offset and call value are one object, in the sample numbering:
`PUSH 2, PUSH 5000, PUSH 1, DUP, PUSH 0, SWAP, PUSH 0, SWAP, PUSH 32, SWAP`, then `last`
(`CALL` or `STOP`), then `STOP`. Before `last` the stack holds, top first: the object
holding 1 as return offset, return size 32, input offset 0, input size 0, the same object
as value, the gas 5000, the address 2. -/
def offsetIsValue (last : Int) : List Int :=
  [0x50, 2, 0x50, 5000, 0x50, 1, 0x52, 0x50, 0, 0x53, 0x50, 0, 0x53, 0x50, 32, 0x53,
   last, 0x00]

/-- A child that jumps to its call value and then returns the word 7, in the sample
numbering: `CALLVALUE, JUMP, PUSH 7, PUSH 0, MSTORE, PUSH 32, PUSH 0, RETURN`. -/
def jumpsThenReturns : List Int :=
  [0x34, 0x59, 0x50, 7, 0x50, 0, 0x55, 0x50, 32, 0x50, 0, 0x61]

/-! ## The loop body -/

theorem fetch_counted (env : Env) (s : VmState) : fetch env (counted s) = fetch env s := rfl

theorem loopBody_next (env : Env) (call : Closure → Heap → State → Result) (s s2 : VmState)
    (hgas : fee ≤ s.gas) (h : execOp env call (fetch env s) (counted s) = .next s2) :
    loopBody env call s = .next (pcAdd s2) := by
  have hg : ¬ (s.heap.val s.closure.Gas < fee) := not_lt.mpr hgas
  simp only [loopBody]
  rw [if_neg hg]
  have h2 : execOp env call (fetch env { s with step := s.step + 1 })
      { s with step := s.step + 1 } = .next s2 := h
  rw [h2]

/-! ## Arithmetic: ADD, SUB, MUL -/

theorem Pow256_pos : (0 : Int) < Pow256 := by unfold Pow256; positivity

theorem isWord_emod (v : Int) : isWord (v % Pow256) :=
  ⟨Int.emod_nonneg _ Pow256_pos.ne', Int.emod_lt_of_pos _ Pow256_pos⟩

theorem execOp_add_sub_mul (env : Env) (call : Closure → Heap → State → Result)
    (s : VmState) (op : OpCode) (x y : Ref) (rest : Stack)
    (hop : op = .oADD ∨ op = .oSUB ∨ op = .oMUL)
    (hpop : Stack.Popn s.stack = .ok (x, y, rest)) :
    ∃ s1, execOp env call op s = .next s1 ∧ s1.stack = s.base :: rest
      ∧ s1.heap.val s.base = exactResult op (s.heap.val x) (s.heap.val y) % Pow256
      ∧ s1.pc = s.pc := by
  rcases hop with h | h | h <;> subst h <;>
    simp only [execOp, withPopn, hpop] <;>
    refine ⟨_, rfl, rfl, ?_, rfl⟩ <;>
    simp [Heap.set, exactResult]

/-- C1: one step of `RunClosure` on `oADD`, `oSUB` or `oMUL` whose popped operands hold
the Words `a` and `b` does not fault (the loop goes on), replaces the two operands by one
object, and the value pushed is `(a + b) mod 2^256`, `(a - b) mod 2^256`,
`(a * b) mod 2^256` respectively; the value is a non-negative residue, which for `oSUB`
with `a < b` is `2^256 + a - b`. The object pushed is the accumulator `base`; it still
holds that value at the end of the step unless `pc` is the same object. -/
theorem C1_add_sub_mul_wrap (env : Env) (call : Closure → Heap → State → Result)
    (s : VmState) (op : OpCode) (x y : Ref) (rest : Stack) (a b : Int)
    (hop : op = .oADD ∨ op = .oSUB ∨ op = .oMUL)
    (hfetch : fetch env s = op) (hgas : fee ≤ s.gas)
    (hpop : Stack.Popn s.stack = .ok (x, y, rest))
    (hx : s.heap.val x = a) (hy : s.heap.val y = b)
    (ha : isWord a) (hb : isWord b) :
    pushed env call op (counted s) = some (exactResult op a b % Pow256)
      ∧ (∃ s2, loopBody env call s = .next s2 ∧ s2.stack = s.base :: rest
          ∧ (s.pc ≠ s.base → s2.stackVals.head? = some (exactResult op a b % Pow256)))
      ∧ isWord (exactResult op a b % Pow256)
      ∧ (op = .oSUB → a < b → exactResult op a b % Pow256 = Pow256 + a - b) := by
  obtain ⟨s1, h1, hst, hv, hpc⟩ := execOp_add_sub_mul env call (counted s) op x y rest hop hpop
  have hv2 : s1.heap.val s.base = exactResult op a b % Pow256 := by
    rw [← hx, ← hy]; exact hv
  have hst2 : s1.stack = s.base :: rest := hst
  have hpc2 : s1.pc = s.pc := hpc
  refine ⟨?_, ⟨pcAdd s1, ?_, ?_, ?_⟩, isWord_emod _, ?_⟩
  · simp [pushed, h1, hst2, hv2]
  · exact loopBody_next env call s s1 hgas (by rw [hfetch]; exact h1)
  · simpa [pcAdd] using hst2
  · intro hne
    have hne2 : ¬ (s.base = s1.pc) := by rw [hpc2]; exact fun h => hne h.symm
    simp [VmState.stackVals, pcAdd, hst2, Heap.set, hne2, hv2]
  · intro hsub hlt
    subst hsub
    have hb2 := hb.2
    have ha1 := ha.1
    have h0 : 0 ≤ Pow256 + a - b := by omega
    have h1 : Pow256 + a - b < Pow256 := by omega
    show (a - b) % Pow256 = Pow256 + a - b
    have : (a - b) % Pow256 = (Pow256 + a - b) % Pow256 := by
      rw [show Pow256 + a - b = (a - b) + Pow256 by ring, Int.add_emod_self]
    rw [this, Int.emod_eq_of_lt h0 h1]

/-- Witness of C1: `oMUL` on `2^255 + 1` and `4`, whose product `2^257 + 4` exceeds
`2^256`, pushes the low 256 bits of the product, which are 4. -/
theorem C1_add_sub_mul_wrap_witness :
    pushed sampleEnv noCall .oMUL (counted (sampleState [0x03] 5000 [2 ^ 255 + 1, 4]))
        = some (exactResult .oMUL (2 ^ 255 + 1) 4 % Pow256)
      ∧ exactResult .oMUL (2 ^ 255 + 1) 4 % Pow256 = 4 :=
  ⟨(C1_add_sub_mul_wrap sampleEnv noCall (sampleState [0x03] 5000 [2 ^ 255 + 1, 4]) .oMUL
      7 8 [] (2 ^ 255 + 1) 4 (Or.inr (Or.inr rfl)) (by decide) (by decide) (by rfl) (by rfl)
      (by rfl) (by decide) (by decide)).1,
    by decide⟩

/-! ## Gas -/

/-- C2 (evaluation of the code at the failing input): one iteration on `oADD` with
operands 5 and 3 and remaining gas exactly 1000 passes the gas check, pushes 8 and goes
on, and the remaining gas is still 1000: `RunClosure` compares the gas with the fee but
has no statement that subtracts the fee. -/
theorem C2_fee_not_deducted :
    (sampleState [0x01] 1000 [5, 3]).gas = 1000
      ∧ fetch sampleEnv (sampleState [0x01] 1000 [5, 3]) = .oADD
      ∧ (loopBody sampleEnv noCall (sampleState [0x01] 1000 [5, 3])).next?.map VmState.gas
          = some 1000
      ∧ (loopBody sampleEnv noCall (sampleState [0x01] 1000 [5, 3])).next?.map
          VmState.stackVals = some [8] := by
  decide

theorem execOp_ne_outOfGas (env : Env) (call : Closure → Heap → State → Result)
    (op : OpCode) (s : VmState) (bytes : List Nat) (s1 : VmState) :
    execOp env call op s ≠ .halted .outOfGas bytes s1 := by
  unfold execOp
  cases op <;> simp only [withPopn, withPop] <;> (repeat' split) <;> simp

/-- C3: at the head of every iteration, `RunClosure` returns through the gas check
(out of gas) if and only if the remaining gas of the closure is below the fee of 1000;
when it does, the bytes returned are empty and the instruction at the program counter
has had no effect: stack, memory, storage, every big.Int object (the gas among them)
and the program counter are those of before the iteration. -/
theorem C3_out_of_gas_iff (env : Env) (call : Closure → Heap → State → Result)
    (s : VmState) :
    ((∃ bytes s1, loopBody env call s = .halted .outOfGas bytes s1) ↔ s.gas < fee)
      ∧ (s.gas < fee →
          ∃ s1, loopBody env call s = .halted .outOfGas [] s1
            ∧ s1.stack = s.stack ∧ s1.mem = s.mem ∧ s1.state = s.state
            ∧ s1.heap = s.heap ∧ s1.gas = s.gas ∧ s1.pc = s.pc
            ∧ s1.closure = s.closure) := by
  have hlt : s.gas < fee → loopBody env call s = .halted .outOfGas [] (counted s) := by
    intro h
    have h2 : s.heap.val s.closure.Gas < fee := h
    simp only [loopBody]
    rw [if_pos h2]
    rfl
  refine ⟨⟨?_, fun h => ⟨[], counted s, hlt h⟩⟩, fun h => ⟨counted s, hlt h, rfl, rfl, rfl,
    rfl, rfl, rfl, rfl⟩⟩
  rintro ⟨bytes, s1, h⟩
  by_contra hge
  have h2 : ¬ (s.heap.val s.closure.Gas < fee) := hge
  simp only [loopBody] at h
  rw [if_neg h2] at h
  cases hex : execOp env call (fetch env { s with step := s.step + 1 })
      { s with step := s.step + 1 } with
  | next s2 => rw [hex] at h; simp at h
  | halted why b s2 =>
      rw [hex] at h
      simp only [Outcome.halted.injEq] at h
      obtain ⟨hw, hb, hs⟩ := h
      subst hw
      exact execOp_ne_outOfGas env call _ _ _ _ hex
  | panic p => rw [hex] at h; simp at h
  | outOfFuel => rw [hex] at h; simp at h

/-- Witness of C3: with 999 gas left the iteration returns empty bytes through the gas
check and leaves the stack as it was. -/
theorem C3_out_of_gas_iff_witness :
    (sampleState [0x01] 999 [5, 3]).gas < fee
      ∧ ∃ s1, loopBody sampleEnv noCall (sampleState [0x01] 999 [5, 3])
            = .halted .outOfGas [] s1
          ∧ s1.stack = (sampleState [0x01] 999 [5, 3]).stack
          ∧ s1.mem = (sampleState [0x01] 999 [5, 3]).mem
          ∧ s1.state = (sampleState [0x01] 999 [5, 3]).state
          ∧ s1.heap = (sampleState [0x01] 999 [5, 3]).heap
          ∧ s1.gas = (sampleState [0x01] 999 [5, 3]).gas
          ∧ s1.pc = (sampleState [0x01] 999 [5, 3]).pc
          ∧ s1.closure = (sampleState [0x01] 999 [5, 3]).closure :=
  ⟨by decide, (C3_out_of_gas_iff sampleEnv noCall (sampleState [0x01] 999 [5, 3])).2
    (by decide)⟩

/-- C4 (evaluation of the code at the failing input): the code `MSIZE, MSIZE, STOP` run
with gas exactly 1000 is not stopped by the gas check after one instruction: it executes
all three instructions, returns through `oSTOP` in the third iteration with two words on
the stack and the gas still 1000. Run with gas 999 it returns empty bytes through the gas
check in the first iteration, before any instruction. -/
theorem C4_one_fee_budget_runs_on :
    (RunClosure sampleEnv 10 sampleClosure (sampleHeap 1000)
        (codeState [0x5c, 0x5c, 0x00])).why? = some .stop
      ∧ (RunClosure sampleEnv 10 sampleClosure (sampleHeap 1000)
        (codeState [0x5c, 0x5c, 0x00])).final?.map VmState.step = some 3
      ∧ (RunClosure sampleEnv 10 sampleClosure (sampleHeap 1000)
        (codeState [0x5c, 0x5c, 0x00])).final?.map VmState.stackVals = some [0, 0]
      ∧ (RunClosure sampleEnv 10 sampleClosure (sampleHeap 1000)
        (codeState [0x5c, 0x5c, 0x00])).final?.map VmState.gas = some 1000
      ∧ (RunClosure sampleEnv 10 sampleClosure (sampleHeap 999)
        (codeState [0x5c, 0x5c, 0x00])).why? = some .outOfGas
      ∧ (RunClosure sampleEnv 10 sampleClosure (sampleHeap 999)
        (codeState [0x5c, 0x5c, 0x00])).bytes? = some []
      ∧ (RunClosure sampleEnv 10 sampleClosure (sampleHeap 999)
        (codeState [0x5c, 0x5c, 0x00])).final?.map VmState.step = some 1
      ∧ (RunClosure sampleEnv 10 sampleClosure (sampleHeap 999)
        (codeState [0x5c, 0x5c, 0x00])).final?.map VmState.stackVals = some [] := by
  decide

/-! ## Control transfer: JUMP, JUMPI -/

/-- After an iteration on `oJUMP` that pops the destination object `d`, the program
counter is that object and it holds the destination plus one: `pc = stack.Pop()` is
followed by the unconditional `pc.Add(pc, ethutil.Big1)` at the end of the loop body. -/
theorem jump_lands_one_past (env : Env) (call : Closure → Heap → State → Result)
    (s : VmState) (d : Ref) (rest : Stack)
    (hfetch : fetch env s = .oJUMP) (hgas : fee ≤ s.gas)
    (hpop : Stack.Pop s.stack = .ok (d, rest)) :
    ∃ s2, loopBody env call s = .next s2 ∧ s2.stack = rest ∧ s2.pc = d
      ∧ s2.pcVal = s.heap.val d + 1 := by
  have hpop2 : Stack.Pop (counted s).stack = .ok (d, rest) := hpop
  have h1 : execOp env call (fetch env s) (counted s)
      = .next { counted s with pc := d, stack := rest } := by
    rw [hfetch]; simp only [execOp, withPop, hpop2]
  refine ⟨_, loopBody_next env call s _ hgas h1, rfl, rfl, ?_⟩
  simp [VmState.pcVal, pcAdd, Heap.set, counted]

/-- C5 (evaluation of the code at the failing input): `oJUMP` at program counter 0 with
the destination 7 on top of the stack pops it, and the next instruction is fetched at
program counter 8, not 7: in a code holding `MSIZE` in slot 7 and `PC` in slot 8 the next
opcode fetched is `PC`. -/
theorem C5_jump_overshoots :
    fetch sampleEnv (sampleState [0x59, 0, 0, 0, 0, 0, 0, 0x5c, 0x5b] 5000 [7]) = .oJUMP
      ∧ (sampleState [0x59, 0, 0, 0, 0, 0, 0, 0x5c, 0x5b] 5000 [7]).stackVals = [7]
      ∧ (loopBody sampleEnv noCall
          (sampleState [0x59, 0, 0, 0, 0, 0, 0, 0x5c, 0x5b] 5000 [7])).next?.map
            VmState.pcVal = some 8
      ∧ (loopBody sampleEnv noCall
          (sampleState [0x59, 0, 0, 0, 0, 0, 0, 0x5c, 0x5b] 5000 [7])).next?.map
            (fetch sampleEnv) = some .oPC
      ∧ (loopBody sampleEnv noCall
          (sampleState [0x59, 0, 0, 0, 0, 0, 0, 0x5c, 0x5b] 5000 [7])).next?.map
            VmState.stackVals = some [] := by
  decide

/-- C6: an iteration on `oJUMPI` at program counter `p` whose popped operands are
`pos` and `cond` goes on with exactly the two operands removed from
the stack; if `cond` is 0 the program counter stays the same object and the next fetch is
at `p + 1`, whatever `pos` holds; and if the next fetch is not at `p + 1` then `cond` is
not 0. -/
theorem C6_jumpi_falls_through (env : Env) (call : Closure → Heap → State → Result)
    (s : VmState) (pos cond : Ref) (rest : Stack)
    (hfetch : fetch env s = .oJUMPI) (hgas : fee ≤ s.gas)
    (hpop : Stack.Popn s.stack = .ok (pos, cond, rest)) :
    ∃ s2, loopBody env call s = .next s2 ∧ s2.stack = rest
      ∧ (s.heap.val cond = 0 → s2.pc = s.pc ∧ s2.pcVal = s.pcVal + 1)
      ∧ (s2.pcVal ≠ s.pcVal + 1 → s.heap.val cond ≠ 0) := by
  have hpop2 : Stack.Popn (counted s).stack = .ok (pos, cond, rest) := hpop
  by_cases hc : s.heap.val cond > 0
  · have hc2 : (counted s).heap.val cond > 0 := hc
    have h1 : execOp env call (fetch env s) (counted s)
        = .next { counted s with pc := pos, stack := rest } := by
      rw [hfetch]; simp only [execOp, withPopn, hpop2, if_pos hc2]
    refine ⟨_, loopBody_next env call s _ hgas h1, rfl, ?_, ?_⟩
    · intro h0; omega
    · intro _; omega
  · have hc2 : ¬ ((counted s).heap.val cond > 0) := hc
    have h1 : execOp env call (fetch env s) (counted s)
        = .next { counted s with stack := rest } := by
      rw [hfetch]; simp only [execOp, withPopn, hpop2, if_neg hc2]
    have hpc : (pcAdd { counted s with stack := rest }).pcVal = s.pcVal + 1 := by
      simp [VmState.pcVal, pcAdd, Heap.set, counted]
    refine ⟨_, loopBody_next env call s _ hgas h1, rfl, fun _ => ⟨rfl, hpc⟩, ?_⟩
    intro hne
    exact absurd hpc hne

/-- Witness of C6: `oJUMPI` at program counter 0 with `pos = 9` and `cond = 0`. -/
theorem C6_jumpi_falls_through_witness :
    ∃ s2, loopBody sampleEnv noCall (sampleState [0x5a] 5000 [9, 0]) = .next s2
      ∧ s2.stack = []
      ∧ ((sampleState [0x5a] 5000 [9, 0]).heap.val 8 = 0 →
          s2.pc = (sampleState [0x5a] 5000 [9, 0]).pc
            ∧ s2.pcVal = (sampleState [0x5a] 5000 [9, 0]).pcVal + 1)
      ∧ (s2.pcVal ≠ (sampleState [0x5a] 5000 [9, 0]).pcVal + 1 →
          (sampleState [0x5a] 5000 [9, 0]).heap.val 8 ≠ 0) :=
  C6_jumpi_falls_through sampleEnv noCall (sampleState [0x5a] 5000 [9, 0]) 7 8 []
    (by decide) (by decide) (by rfl)

/-! ## Division: DIV, MOD, SDIV, SMOD -/

/-- C7: on popped operands holding the Words `a` and `b` with `b` not 0, `oDIV` pushes a
value `q` and `oMOD` pushes a value `r` with `a = q * b + r` and `0 <= r < b`; `q` is the
floor of the rational quotient `a / b`. -/
theorem C7_div_mod_identity (env : Env) (call : Closure → Heap → State → Result)
    (s : VmState) (x y : Ref) (rest : Stack) (a b : Int)
    (hpop : Stack.Popn s.stack = .ok (x, y, rest))
    (hx : s.heap.val x = a) (hy : s.heap.val y = b)
    (ha : isWord a) (hb : isWord b) (hb0 : b ≠ 0) :
    ∃ q r, pushed env call .oDIV (counted s) = some q
      ∧ pushed env call .oMOD (counted s) = some r
      ∧ a = q * b + r ∧ 0 ≤ r ∧ r < b
      ∧ q = ⌊(a : ℚ) / (b : ℚ)⌋ ∧ isWord q ∧ isWord r := by
  have hpop2 : Stack.Popn (counted s).stack = .ok (x, y, rest) := hpop
  have hx2 : (counted s).heap.val x = a := hx
  have hy2 : (counted s).heap.val y = b := hy
  have hbpos : 0 < b := lt_of_le_of_ne hb.1 (Ne.symm hb0)
  have hr0 : 0 ≤ a % b := Int.emod_nonneg a hb0
  have hrb : a % b < b := Int.emod_lt_of_pos a hbpos
  have hq0 : 0 ≤ a / b := Int.ediv_nonneg ha.1 hb.1
  have hqa : a / b ≤ a := Int.ediv_le_self b ha.1
  refine ⟨a / b, a % b, ?_, ?_, ?_, hr0, hrb, ?_, ⟨hq0, lt_of_le_of_lt hqa ha.2⟩,
    ⟨hr0, lt_trans hrb hb.2⟩⟩
  · simp [pushed, execOp, withPopn, hpop2, hx2, hy2, hb0, Stack.Push, Heap.set]
  · simp [pushed, execOp, withPopn, hpop2, hx2, hy2, hb0, Stack.Push, Heap.set]
  · have := Int.ediv_add_emod a b
    linarith [mul_comm b (a / b)]
  · have hbn : ((b.toNat : ℤ)) = b := Int.toNat_of_nonneg hb.1
    have h := Rat.floor_intCast_div_natCast a b.toNat
    rw [← hbn]
    rw [← h]
    push_cast
    rfl

/-- Witness of C7: 17 divided by 5. -/
theorem C7_div_mod_identity_witness :
    ∃ q r, pushed sampleEnv noCall .oDIV (counted (sampleState [0x04] 5000 [17, 5])) = some q
      ∧ pushed sampleEnv noCall .oMOD (counted (sampleState [0x04] 5000 [17, 5])) = some r
      ∧ (17 : Int) = q * 5 + r ∧ 0 ≤ r ∧ r < 5
      ∧ q = ⌊((17 : Int) : ℚ) / ((5 : Int) : ℚ)⌋ ∧ isWord q ∧ isWord r :=
  C7_div_mod_identity sampleEnv noCall (sampleState [0x04] 5000 [17, 5]) 7 8 [] 17 5
    (by rfl) (by rfl) (by rfl) (by decide) (by decide) (by decide)

theorem foldSign_val_zero (h : Heap) (x y : Ref) (hy : h.val y = 0) :
    (foldSign h x).val y = 0 := by
  unfold foldSign
  split
  · rename_i hgt
    by_cases hxy : y = x
    · subst hxy
      rw [hy] at hgt
      exact absurd hgt (not_lt.mpr Pow256_pos.le)
    · simp [Heap.set, hxy, hy]
  · exact hy

/-- C8 (as amended): an iteration on `oDIV`, `oMOD`, `oSDIV` or `oSMOD` whose popped
divisor holds 0 raises the division-by-zero run-time panic of math/big. The iteration
neither pushes a value nor goes on to the next instruction nor returns, and the run of
the loop from that state ends in that panic: no bytes are returned. -/
theorem C8_division_by_zero_panics (env : Env) (call : Closure → Heap → State → Result)
    (s : VmState) (op : OpCode) (x y : Ref) (rest : Stack) (n : Nat)
    (hop : op = .oDIV ∨ op = .oMOD ∨ op = .oSDIV ∨ op = .oSMOD)
    (hfetch : fetch env s = op) (hgas : fee ≤ s.gas)
    (hpop : Stack.Popn s.stack = .ok (x, y, rest))
    (hy : s.heap.val y = 0) :
    pushed env call op (counted s) = none
      ∧ loopBody env call s = .panic .divisionByZero
      ∧ RunLoop env call (n + 1) s = .panicked .divisionByZero := by
  have hpop2 : Stack.Popn (counted s).stack = .ok (x, y, rest) := hpop
  have hy2 : (counted s).heap.val y = 0 := hy
  have hf : (foldSign (foldSign (counted s).heap x) y).val y = 0 :=
    foldSign_val_zero _ y y (foldSign_val_zero _ x y hy2)
  have hex : execOp env call op (counted s) = .panic .divisionByZero := by
    rcases hop with h | h | h | h <;> subst h <;>
      simp [execOp, withPopn, hpop2, hy2, hf]
  have hg : ¬ (s.heap.val s.closure.Gas < fee) := not_lt.mpr hgas
  have hex2 : execOp env call (fetch env { s with step := s.step + 1 })
      { s with step := s.step + 1 } = .panic .divisionByZero := by
    have : fetch env { s with step := s.step + 1 } = op := hfetch
    rw [this]; exact hex
  have hbody : loopBody env call s = .panic .divisionByZero := by
    simp only [loopBody]
    rw [if_neg hg, hex2]
  refine ⟨by simp [pushed, hex], hbody, ?_⟩
  simp [RunLoop, hbody]

/-- Witness of C8: `oSDIV` with the operands 5 and 0. -/
theorem C8_division_by_zero_panics_witness :
    pushed sampleEnv noCall .oSDIV (counted (sampleState [0x05] 5000 [5, 0])) = none
      ∧ loopBody sampleEnv noCall (sampleState [0x05] 5000 [5, 0]) = .panic .divisionByZero
      ∧ RunLoop sampleEnv noCall (3 + 1) (sampleState [0x05] 5000 [5, 0])
          = .panicked .divisionByZero :=
  C8_division_by_zero_panics sampleEnv noCall (sampleState [0x05] 5000 [5, 0]) .oSDIV 7 8 []
    3 (Or.inr (Or.inr (Or.inl rfl))) (by decide) (by decide) (by rfl) (by rfl)

/-- C8 (counterexample): the code `PUSH 5, PUSH 0, DIV, STOP` run with ample gas does not
end with an outcome returned by `RunClosure`: the run is aborted by the division-by-zero
panic in its third iteration and no result is returned. -/
theorem C8_div_by_zero_is_no_returned_fault :
    (RunClosure sampleEnv 10 sampleClosure (sampleHeap 100000)
        (codeState [0x50, 5, 0x50, 0, 0x04, 0x00])).panic? = some .divisionByZero
      ∧ ¬ ∃ why bytes final, RunClosure sampleEnv 10 sampleClosure (sampleHeap 100000)
          (codeState [0x50, 5, 0x50, 0, 0x04, 0x00]) = .returned why bytes final := by
  have h : (RunClosure sampleEnv 10 sampleClosure (sampleHeap 100000)
        (codeState [0x50, 5, 0x50, 0, 0x04, 0x00])).panic? = some .divisionByZero := by
    decide
  refine ⟨h, ?_⟩
  rintro ⟨why, bytes, final, heq⟩
  rw [heq] at h
  simp [Result.panic?] at h

/-- C9 (evaluation of the code at the failing input): `oSDIV` on the operands
`x = 2^256 - 4` (minus four) and `y = 2` pushes `2^255 - 2`, the unsigned quotient, whereas
the signed quotient minus two is the Word `2^256 - 2`; `oSMOD` on `x = 2^256 - 4` and
`y = 2^256 - 2` (minus two, which divides minus four exactly) pushes `2^256 - 4` whereas
the signed remainder is 0. The three comparisons of each case are made against `Pow256`
(2^256) under the comment `n > 2**255`, so no Word is ever read as negative. -/
theorem C9_sdiv_smod_unsigned :
    pushed sampleEnv noCall .oSDIV (counted (sampleState [0x05] 5000 [2 ^ 256 - 4, 2]))
        = some (2 ^ 255 - 2)
      ∧ (signedRef (2 ^ 256 - 4) / signedRef 2) % Pow256 = 2 ^ 256 - 2
      ∧ pushed sampleEnv noCall .oSMOD
          (counted (sampleState [0x07] 5000 [2 ^ 256 - 4, 2 ^ 256 - 2])) = some (2 ^ 256 - 4)
      ∧ signedRef (2 ^ 256 - 4) = signedRef (2 ^ 256 - 2) * 2
      ∧ (signedRef (2 ^ 256 - 4) % signedRef (2 ^ 256 - 2)) % Pow256 = 0 := by
  decide

/-! ## The range of the values pushed by the arithmetic cases -/

/-- C10 (evaluation of the code at the failing input): `oNEG` on the Word 0 pushes
`2^256`, which is not a Word: the case computes `base.Sub(Pow256, stack.Pop())` and,
unlike `oADD`, `oSUB` and `oMUL`, does not reduce the result modulo `Pow256`. -/
theorem C10_neg_zero_leaves_word_range :
    isWord 0
      ∧ pushed sampleEnv noCall .oNEG (counted (sampleState [0x09] 5000 [0])) = some Pow256
      ∧ ¬ isWord Pow256
      ∧ (loopBody sampleEnv noCall (sampleState [0x09] 5000 [0])).next?.map
          VmState.stackVals = some [2 ^ 256] := by
  decide

theorem foldSign_of_le (h : Heap) (x : Ref) (hx : h.val x ≤ Pow256) : foldSign h x = h := by
  unfold foldSign
  rw [if_neg (not_lt.mpr hx)]

theorem isWord_one : isWord 1 := by
  unfold isWord Pow256; norm_num

/-- The binary arithmetic cases keep the Word range: on popped operands holding Words
(the divisor not 0 for the four division cases), each of `oADD`, `oSUB`, `oMUL`, `oDIV`,
`oMOD`, `oSDIV`, `oSMOD`, `oEXP` pushes a Word. -/
theorem arith_pushes_word (env : Env) (call : Closure → Heap → State → Result)
    (s : VmState) (op : OpCode) (x y : Ref) (rest : Stack)
    (hop : op = .oADD ∨ op = .oSUB ∨ op = .oMUL ∨ op = .oDIV ∨ op = .oMOD ∨ op = .oSDIV
      ∨ op = .oSMOD ∨ op = .oEXP)
    (hpop : Stack.Popn s.stack = .ok (x, y, rest))
    (hx : isWord (s.heap.val x)) (hy : isWord (s.heap.val y))
    (hdiv : op = .oDIV ∨ op = .oMOD ∨ op = .oSDIV ∨ op = .oSMOD → s.heap.val y ≠ 0) :
    ∃ v, pushed env call op s = some v ∧ isWord v := by
  have hf1 : foldSign s.heap x = s.heap := foldSign_of_le _ _ hx.2.le
  have hf2 : foldSign s.heap y = s.heap := foldSign_of_le _ _ hy.2.le
  have hq : isWord (s.heap.val x / s.heap.val y) :=
    ⟨Int.ediv_nonneg hx.1 hy.1, lt_of_le_of_lt (Int.ediv_le_self _ hx.1) hx.2⟩
  rcases hop with h | h | h | h | h | h | h | h <;> subst h
  · exact ⟨(s.heap.val x + s.heap.val y) % Pow256,
      by simp [pushed, execOp, withPopn, hpop, Stack.Push, Heap.set], isWord_emod _⟩
  · exact ⟨(s.heap.val x - s.heap.val y) % Pow256,
      by simp [pushed, execOp, withPopn, hpop, Stack.Push, Heap.set], isWord_emod _⟩
  · exact ⟨(s.heap.val x * s.heap.val y) % Pow256,
      by simp [pushed, execOp, withPopn, hpop, Stack.Push, Heap.set], isWord_emod _⟩
  · have hy0 : s.heap.val y ≠ 0 := hdiv (Or.inl rfl)
    exact ⟨s.heap.val x / s.heap.val y,
      by simp [pushed, execOp, withPopn, hpop, Stack.Push, Heap.set, hy0], hq⟩
  · have hy0 : s.heap.val y ≠ 0 := hdiv (Or.inr (Or.inl rfl))
    have hpos : 0 < s.heap.val y := lt_of_le_of_ne hy.1 (Ne.symm hy0)
    exact ⟨s.heap.val x % s.heap.val y,
      by simp [pushed, execOp, withPopn, hpop, Stack.Push, Heap.set, hy0],
      ⟨Int.emod_nonneg _ hy0, lt_trans (Int.emod_lt_of_pos _ hpos) hy.2⟩⟩
  · have hy0 : s.heap.val y ≠ 0 := hdiv (Or.inr (Or.inr (Or.inl rfl)))
    have hz : foldSign (s.heap.alloc (s.heap.val x / s.heap.val y)).2
        (s.heap.alloc (s.heap.val x / s.heap.val y)).1
        = (s.heap.alloc (s.heap.val x / s.heap.val y)).2 :=
      foldSign_of_le _ _ (by simpa [Heap.alloc] using hq.2.le)
    exact ⟨s.heap.val x / s.heap.val y,
      by simp [pushed, execOp, withPopn, hpop, Stack.Push, hf1, hf2, hy0, hz]; simp [Heap.alloc],
      hq⟩
  · have hy0 : s.heap.val y ≠ 0 := hdiv (Or.inr (Or.inr (Or.inr rfl)))
    have hpos : 0 < s.heap.val y := lt_of_le_of_ne hy.1 (Ne.symm hy0)
    have hr : isWord (s.heap.val x % s.heap.val y) :=
      ⟨Int.emod_nonneg _ hy0, lt_trans (Int.emod_lt_of_pos _ hpos) hy.2⟩
    have hz : foldSign (s.heap.alloc (s.heap.val x % s.heap.val y)).2
        (s.heap.alloc (s.heap.val x % s.heap.val y)).1
        = (s.heap.alloc (s.heap.val x % s.heap.val y)).2 :=
      foldSign_of_le _ _ (by simpa [Heap.alloc] using hr.2.le)
    exact ⟨s.heap.val x % s.heap.val y,
      by simp [pushed, execOp, withPopn, hpop, Stack.Push, hf1, hf2, hy0, hz]; simp [Heap.alloc],
      hr⟩
  · refine ⟨bigExp (s.heap.val x) (s.heap.val y) Pow256,
      by simp [pushed, execOp, withPopn, hpop, Stack.Push, Heap.set], ?_⟩
    unfold bigExp
    split
    · exact isWord_one
    · exact isWord_emod _

/-- On a popped operand holding a Word other than 0, `oNEG` pushes the Word
`2^256 - a`. -/
theorem neg_pushes_word (env : Env) (call : Closure → Heap → State → Result)
    (s : VmState) (x : Ref) (rest : Stack)
    (hpop : Stack.Pop s.stack = .ok (x, rest))
    (hx : isWord (s.heap.val x)) (hx0 : s.heap.val x ≠ 0) :
    pushed env call .oNEG s = some (Pow256 - s.heap.val x)
      ∧ isWord (Pow256 - s.heap.val x) := by
  have h1 := hx.1
  have h2 := hx.2
  refine ⟨by simp [pushed, execOp, withPop, hpop, Stack.Push, Heap.set], ?_, ?_⟩
  · omega
  · omega

/-! ## Memory: reading back what was written -/

theorem getD_pad (m : List Nat) (k i : Nat) :
    (m ++ List.replicate k 0).getD i 0 = m.getD i 0 := by
  by_cases h : i < m.length
  · rw [List.getD_append _ _ _ _ h]
  · have h2 : m.length ≤ i := not_lt.mp h
    rw [List.getD_append_right _ _ _ _ h2, List.getD_eq_default _ _ h2]
    simp only [List.getD_eq_getElem?_getD, List.getElem?_replicate]
    split <;> rfl

theorem Memory.getD_Set (m : Memory) (o n : Nat) (d : List Nat) (i : Nat) :
    (Memory.Set m o n d).getD i 0
      = if o ≤ i ∧ i < o + n then d.getD (i - o) 0 else m.getD i 0 := by
  unfold Memory.Set
  by_cases hn : n = 0
  · subst hn
    have : ¬ (o ≤ i ∧ i < o + 0) := by omega
    rw [if_neg this]
    rfl
  · rw [if_neg hn]
    have hlen : o + n ≤ (m ++ List.replicate (o + n - m.length) 0).length := by
      simp only [List.length_append, List.length_replicate]; omega
    generalize hg : m ++ List.replicate (o + n - m.length) 0 = grown at hlen
    have hgd : ∀ j, grown.getD j 0 = m.getD j 0 := by
      intro j; rw [← hg]; exact getD_pad m _ j
    have htake : (grown.take o).length = o := by
      rw [List.length_take]; omega
    have hmid : ((List.range n).map (fun i => d.getD i 0)).length = n := by simp
    by_cases h1 : i < o
    · have hc : ¬ (o ≤ i ∧ i < o + n) := by omega
      rw [if_neg hc, List.append_assoc, List.getD_append _ _ _ _ (by rw [htake]; exact h1)]
      rw [← hgd i]
      simp only [List.getD_eq_getElem?_getD, List.getElem?_take_of_lt h1]
    · have h1' : o ≤ i := not_lt.mp h1
      rw [List.append_assoc, List.getD_append_right _ _ _ _ (by rw [htake]; exact h1'), htake]
      by_cases h2 : i < o + n
      · rw [if_pos ⟨h1', h2⟩, List.getD_append _ _ _ _ (by rw [hmid]; omega)]
        have h3 : i - o < n := by omega
        simp only [List.getD_eq_getElem?_getD, List.getElem?_map, List.getElem?_range h3,
          Option.map_some', Option.getD_some]
      · have hc : ¬ (o ≤ i ∧ i < o + n) := by omega
        rw [if_neg hc, List.getD_append_right _ _ _ _ (by rw [hmid]; omega), hmid, ← hgd i]
        simp only [List.getD_eq_getElem?_getD, List.getElem?_drop]
        congr 2
        omega

theorem Memory.Get_Set (m : Memory) (o n : Nat) (d : List Nat) :
    Memory.Get (Memory.Set m o n d) o n = fit n d := by
  unfold Memory.Get fit
  apply List.map_congr_left
  intro i hi
  have hi2 : i < n := List.mem_range.mp hi
  rw [Memory.getD_Set, if_pos ⟨by omega, by omega⟩]
  congr 1
  omega

/-! ## Faults that abort the run: stack underflow, missing contract -/

theorem loopBody_panic (env : Env) (call : Closure → Heap → State → Result) (s : VmState)
    (p : Panic) (n : Nat) (hgas : fee ≤ s.gas)
    (h : execOp env call (fetch env s) (counted s) = .panic p) :
    loopBody env call s = .panic p ∧ RunLoop env call (n + 1) s = .panicked p := by
  have hg : ¬ (s.heap.val s.closure.Gas < fee) := not_lt.mpr hgas
  have h2 : execOp env call (fetch env { s with step := s.step + 1 })
      { s with step := s.step + 1 } = .panic p := h
  have hbody : loopBody env call s = .panic p := by
    simp only [loopBody]
    rw [if_neg hg, h2]
  exact ⟨hbody, by simp [RunLoop, hbody]⟩

theorem execOp_underflow (env : Env) (call : Closure → Heap → State → Result)
    (s : VmState) (op : OpCode)
    (hk : s.stack.length < popCount op)
    (hcall : op = .oCALL → ∀ a b io is rest, s.stack = a :: b :: io :: is :: rest →
      0 ≤ Int64 (s.heap.val io) ∧ 0 ≤ Int64 (s.heap.val is)) :
    execOp env call op s = .panic .stackUnderflow := by
  cases op <;> simp only [popCount, Nat.not_lt_zero] at hk
  all_goals
    rcases hst : s.stack with _ | ⟨a, _ | ⟨b, _ | ⟨c, _ | ⟨d, _ | ⟨e, _ | ⟨f, _ | ⟨g, r⟩⟩⟩⟩⟩⟩⟩ <;>
      rw [hst] at hk <;> simp only [List.length_cons, List.length_nil] at hk <;>
      first
        | omega
        | simp [execOp, withPopn, withPop, Stack.Popn, Stack.Pop, Stack.Peek, hst]
  all_goals
    have hh := hcall rfl _ _ _ _ _ hst
    simp [memGet, not_lt.mpr hh.1, not_lt.mpr hh.2, withPopn, withPop, Stack.Popn, Stack.Pop]

/-- C13 (as amended): for every opcode whose case takes `k >= 1` operands from the stack
(`popCount`) and every stack of depth less than `k`, the iteration raises the
`StackUnderflow` fault of the stack: nothing is substituted for the missing operand,
nothing is pushed, the loop does not go on, and the run from that state is aborted by
the fault without returning bytes. For `oCALL` with four to six words on the stack this
holds when the input offset and size, which are read before the remaining operands are
popped, are non-negative as `int64`. -/
theorem C13_stack_underflow_aborts (env : Env) (call : Closure → Heap → State → Result)
    (s : VmState) (op : OpCode) (n : Nat)
    (hfetch : fetch env s = op) (hgas : fee ≤ s.gas)
    (hk : s.stack.length < popCount op)
    (hcall : op = .oCALL → ∀ a b io is rest, s.stack = a :: b :: io :: is :: rest →
      0 ≤ Int64 (s.heap.val io) ∧ 0 ≤ Int64 (s.heap.val is)) :
    pushed env call op (counted s) = none
      ∧ loopBody env call s = .panic .stackUnderflow
      ∧ RunLoop env call (n + 1) s = .panicked .stackUnderflow := by
  have hex : execOp env call op (counted s) = .panic .stackUnderflow :=
    execOp_underflow env call (counted s) op hk hcall
  have hb := loopBody_panic env call s .stackUnderflow n hgas (by rw [hfetch]; exact hex)
  exact ⟨by simp [pushed, hex], hb.1, hb.2⟩

/-- Witness of C13: `oCALL`, which takes seven operands, on a stack of three words. -/
theorem C13_stack_underflow_aborts_witness :
    pushed sampleEnv noCall .oCALL (counted (sampleState [0x60] 5000 [1, 2, 3])) = none
      ∧ loopBody sampleEnv noCall (sampleState [0x60] 5000 [1, 2, 3])
          = .panic .stackUnderflow
      ∧ RunLoop sampleEnv noCall (0 + 1) (sampleState [0x60] 5000 [1, 2, 3])
          = .panicked .stackUnderflow :=
  C13_stack_underflow_aborts sampleEnv noCall (sampleState [0x60] 5000 [1, 2, 3]) .oCALL 0
    (by decide) (by decide) (by decide) (fun _ a b io is rest h => by cases h)

/-- C13 (counterexample): the code `PUSH 5, ADD` run with ample gas reaches `oADD` with one
word on the stack; the run does not end with an outcome returned by `RunClosure`: it is
aborted by the stack-underflow fault and nothing is returned. -/
theorem C13_underflow_is_no_returned_fault :
    (RunClosure sampleEnv 10 sampleClosure (sampleHeap 100000)
        (codeState [0x50, 5, 0x01])).panic? = some .stackUnderflow
      ∧ ¬ ∃ why bytes final, RunClosure sampleEnv 10 sampleClosure (sampleHeap 100000)
          (codeState [0x50, 5, 0x01]) = .returned why bytes final := by
  have h : (RunClosure sampleEnv 10 sampleClosure (sampleHeap 100000)
        (codeState [0x50, 5, 0x01])).panic? = some .stackUnderflow := by
    decide
  refine ⟨h, ?_⟩
  rintro ⟨why, bytes, final, heq⟩
  rw [heq] at h
  simp [Result.panic?] at h

/-- C15 (as amended): an iteration on `oCALL` whose seven operands are on the stack (input
offset and size non-negative as `int64`) and whose target address resolves to no contract
(`GetContract` returns null) aborts the run of the caller with the fault of the null
contract: the child never runs, the statement `mem.Set` that follows the call is never
reached, so the memory of the caller is not written, and no bytes are returned. -/
theorem C15_call_of_missing_contract_aborts (env : Env)
    (call : Closure → Heap → State → Result) (s : VmState) (n : Nat)
    (retOffset retSize inOffset inSize value gas addr : Ref) (rest : Stack)
    (hfetch : fetch env s = .oCALL) (hgas : fee ≤ s.gas)
    (hstack : s.stack
      = retOffset :: retSize :: inOffset :: inSize :: value :: gas :: addr :: rest)
    (hoff : 0 ≤ Int64 (s.heap.val inOffset)) (hsize : 0 ≤ Int64 (s.heap.val inSize))
    (hnull : GetContract s.state (s.heap.val addr) = none) :
    loopBody env call s = .panic .nilContract
      ∧ RunLoop env call (n + 1) s = .panicked .nilContract := by
  have hst : (counted s).stack
      = retOffset :: retSize :: inOffset :: inSize :: value :: gas :: addr :: rest := hstack
  have hoff2 : ¬ (Int64 ((counted s).heap.val inOffset) < 0) := not_lt.mpr hoff
  have hsize2 : ¬ (Int64 ((counted s).heap.val inSize) < 0) := not_lt.mpr hsize
  have hnull2 : GetContract (counted s).state ((counted s).heap.val addr) = none := hnull
  have hex : execOp env call .oCALL (counted s) = .panic .nilContract := by
    simp [execOp, withPopn, withPop, Stack.Popn, Stack.Pop, hst, memGet, hoff2, hsize2,
      hnull2, callContract]
  exact loopBody_panic env call s .nilContract n hgas (by rw [hfetch]; exact hex)

/-- Witness of C15: a call of the address 9, under which `codeState` holds no contract. -/
theorem C15_call_of_missing_contract_aborts_witness :
    loopBody sampleEnv noCall (sampleState [0x60] 5000 [9, 5000, 0, 0, 0, 32, 0])
        = .panic .nilContract
      ∧ RunLoop sampleEnv noCall (0 + 1) (sampleState [0x60] 5000 [9, 5000, 0, 0, 0, 32, 0])
        = .panicked .nilContract :=
  C15_call_of_missing_contract_aborts sampleEnv noCall
    (sampleState [0x60] 5000 [9, 5000, 0, 0, 0, 32, 0]) 0 13 12 11 10 9 8 7 []
    (by decide) (by decide) (by rfl) (by decide) (by decide) (by decide)

/-- C15 (counterexample): the code `callMissing`, which calls the missing contract 9 and
then stops, does not go on after the call and does not return: the run of the caller is
aborted by the fault of the null contract, although `STOP` follows the call. -/
theorem C15_missing_contract_crashes_the_run :
    (RunClosure sampleEnv 20 sampleClosure (sampleHeap 100000)
        (codeState callMissing)).panic? = some .nilContract
      ∧ ¬ ∃ why bytes final, RunClosure sampleEnv 20 sampleClosure (sampleHeap 100000)
          (codeState callMissing) = .returned why bytes final := by
  have h : (RunClosure sampleEnv 20 sampleClosure (sampleHeap 100000)
        (codeState callMissing)).panic? = some .nilContract := by
    decide
  refine ⟨h, ?_⟩
  rintro ⟨why, bytes, final, heq⟩
  rw [heq] at h
  simp [Result.panic?] at h

/-! ## Unknown opcodes, EXP, and SDIV/SMOD against DIV/MOD -/

/-- An iteration with sufficient gas on a fetched value that is no known opcode (it
reaches the `default` case) does not halt: the loop goes on with the same objects on the
stack, the same memory, storage and closure, the program counter is the same object and
holds one more than before, and every other object holds what it held. -/
theorem unknown_opcode_step (env : Env) (call : Closure → Heap → State → Result)
    (s : VmState) (hfetch : fetch env s = .invalid) (hgas : fee ≤ s.gas) :
    ∃ s2, loopBody env call s = .next s2
      ∧ s2.stack = s.stack ∧ s2.mem = s.mem ∧ s2.state = s.state ∧ s2.closure = s.closure
      ∧ s2.pc = s.pc ∧ s2.pcVal = s.pcVal + 1
      ∧ (∀ r, r ≠ s.pc → s2.heap.val r = s.heap.val r)
      ∧ (s.pc ∉ s.stack → s2.stackVals = s.stackVals) := by
  have h1 : execOp env call (fetch env s) (counted s) = .next (counted s) := by
    rw [hfetch]; rfl
  refine ⟨_, loopBody_next env call s _ hgas h1, rfl, rfl, rfl, rfl, rfl, ?_, ?_, ?_⟩
  · simp [VmState.pcVal, pcAdd, Heap.set, counted]
  · intro r hr
    simp [pcAdd, Heap.set, counted, hr]
  · intro hnot
    simp only [VmState.stackVals, pcAdd, counted, Heap.set]
    apply List.map_congr_left
    intro r hr
    have : r ≠ s.pc := fun h => hnot (h ▸ hr)
    simp [this]

/-- C16 (evaluation of the code at the failing input): the code `PC, 0xee` run from program
counter 0 with ample gas. After `oPC` the stack holds one word, which reads 1, and the
value fetched next, 0xee, is no known opcode. The iteration on it goes on with the same
object on the stack, but the word now reads 2: `oPC` pushed the program counter object
itself and `pc.Add(pc, ethutil.Big1)` advances that object in place. -/
theorem C16_unknown_opcode_changes_stack_word :
    (loopBody sampleEnv noCall (sampleState pcThenUnknown 5000 [])).next?.map
        VmState.stackVals = some [1]
      ∧ (loopBody sampleEnv noCall (sampleState pcThenUnknown 5000 [])).next?.map
        (fetch sampleEnv) = some .invalid
      ∧ (loopBody sampleEnv noCall (sampleState pcThenUnknown 5000 [])).next?.map
        VmState.stack = some [5]
      ∧ ((loopBody sampleEnv noCall (sampleState pcThenUnknown 5000 [])).next?.bind
          (fun s => (loopBody sampleEnv noCall s).next?)).map VmState.stack = some [5]
      ∧ ((loopBody sampleEnv noCall (sampleState pcThenUnknown 5000 [])).next?.bind
          (fun s => (loopBody sampleEnv noCall s).next?)).map VmState.stackVals = some [2]
      ∧ ((loopBody sampleEnv noCall (sampleState pcThenUnknown 5000 [])).next?.bind
          (fun s => (loopBody sampleEnv noCall s).next?)).map VmState.pcVal = some 2 := by
  decide

/-- C17: on popped operands holding `a` (first result of `Popn`, the base) and the Word
`b` (the exponent), `oEXP` pushes `a^b mod 2^256`, which is a Word; for `b = 0` it pushes 1
whatever `a` is, 0 included. -/
theorem C17_exp_mod_pow256 (env : Env) (call : Closure → Heap → State → Result)
    (s : VmState) (x y : Ref) (rest : Stack) (a b : Int)
    (hpop : Stack.Popn s.stack = .ok (x, y, rest))
    (hx : s.heap.val x = a) (hy : s.heap.val y = b) (hb : isWord b) :
    pushed env call .oEXP (counted s) = some (a ^ b.toNat % Pow256)
      ∧ isWord (a ^ b.toNat % Pow256)
      ∧ (b = 0 → pushed env call .oEXP (counted s) = some 1) := by
  have hpop2 : Stack.Popn (counted s).stack = .ok (x, y, rest) := hpop
  have hx2 : (counted s).heap.val x = a := hx
  have hy2 : (counted s).heap.val y = b := hy
  have hone : (1 : Int) % Pow256 = 1 := by unfold Pow256; norm_num
  have hval : bigExp a b Pow256 = a ^ b.toNat % Pow256 := by
    unfold bigExp
    by_cases h0 : b ≤ 0
    · have : b = 0 := le_antisymm h0 hb.1
      subst this
      simp [hone]
    · rw [if_neg h0]
  have hp : pushed env call .oEXP (counted s) = some (a ^ b.toNat % Pow256) := by
    simp [pushed, execOp, withPopn, hpop2, hx2, hy2, Stack.Push, Heap.set, hval]
  refine ⟨hp, isWord_emod _, ?_⟩
  intro h0
  rw [hp, h0]
  simp [hone]

/-- Witness of C17: zero to the power zero. -/
theorem C17_exp_mod_pow256_witness :
    pushed sampleEnv noCall .oEXP (counted (sampleState [0x08] 5000 [0, 0]))
        = some ((0 : Int) ^ (0 : Int).toNat % Pow256)
      ∧ isWord ((0 : Int) ^ (0 : Int).toNat % Pow256)
      ∧ ((0 : Int) = 0 →
          pushed sampleEnv noCall .oEXP (counted (sampleState [0x08] 5000 [0, 0])) = some 1) :=
  C17_exp_mod_pow256 sampleEnv noCall (sampleState [0x08] 5000 [0, 0]) 7 8 [] 0 0
    (by rfl) (by rfl) (by rfl) (by decide)

/-- C18: on popped operands holding the Words `a` and `b` with `b` not 0, none of the
three comparisons with `Pow256` of `oSDIV` and of `oSMOD` holds (neither operand nor the
quotient or remainder exceeds `2^256`), no object is folded, and `oSDIV` pushes the value
`oDIV` pushes, `oSMOD` the value `oMOD` pushes. -/
theorem C18_sdiv_smod_equal_div_mod (env : Env) (call : Closure → Heap → State → Result)
    (s : VmState) (x y : Ref) (rest : Stack) (a b : Int)
    (hpop : Stack.Popn s.stack = .ok (x, y, rest))
    (hx : s.heap.val x = a) (hy : s.heap.val y = b)
    (ha : isWord a) (hb : isWord b) (hb0 : b ≠ 0) :
    ¬ (a > Pow256) ∧ ¬ (b > Pow256) ∧ ¬ (a / b > Pow256) ∧ ¬ (a % b > Pow256)
      ∧ foldSign s.heap x = s.heap ∧ foldSign (foldSign s.heap x) y = s.heap
      ∧ pushed env call .oSDIV (counted s) = some (a / b)
      ∧ pushed env call .oSDIV (counted s) = pushed env call .oDIV (counted s)
      ∧ pushed env call .oSMOD (counted s) = some (a % b)
      ∧ pushed env call .oSMOD (counted s) = pushed env call .oMOD (counted s) := by
  have hpop2 : Stack.Popn (counted s).stack = .ok (x, y, rest) := hpop
  have hx2 : (counted s).heap.val x = a := hx
  have hy2 : (counted s).heap.val y = b := hy
  have hbpos : 0 < b := lt_of_le_of_ne hb.1 (Ne.symm hb0)
  have hq : isWord (a / b) :=
    ⟨Int.ediv_nonneg ha.1 hb.1, lt_of_le_of_lt (Int.ediv_le_self _ ha.1) ha.2⟩
  have hr : isWord (a % b) :=
    ⟨Int.emod_nonneg _ hb0, lt_trans (Int.emod_lt_of_pos _ hbpos) hb.2⟩
  have hf1 : foldSign (counted s).heap x = (counted s).heap :=
    foldSign_of_le _ _ (by rw [hx2]; exact ha.2.le)
  have hf2 : foldSign (counted s).heap y = (counted s).heap :=
    foldSign_of_le _ _ (by rw [hy2]; exact hb.2.le)
  have hzq : foldSign ((counted s).heap.alloc (a / b)).2 ((counted s).heap.alloc (a / b)).1
      = ((counted s).heap.alloc (a / b)).2 :=
    foldSign_of_le _ _ (by simpa [Heap.alloc] using hq.2.le)
  have hzr : foldSign ((counted s).heap.alloc (a % b)).2 ((counted s).heap.alloc (a % b)).1
      = ((counted s).heap.alloc (a % b)).2 :=
    foldSign_of_le _ _ (by simpa [Heap.alloc] using hr.2.le)
  have hsdiv : pushed env call .oSDIV (counted s) = some (a / b) := by
    simp [pushed, execOp, withPopn, hpop2, Stack.Push, hf1, hf2, hx2, hy2, hb0, hzq]
    simp [Heap.alloc]
  have hsmod : pushed env call .oSMOD (counted s) = some (a % b) := by
    simp [pushed, execOp, withPopn, hpop2, Stack.Push, hf1, hf2, hx2, hy2, hb0, hzr]
    simp [Heap.alloc]
  have hdiv : pushed env call .oDIV (counted s) = some (a / b) := by
    simp [pushed, execOp, withPopn, hpop2, hx2, hy2, hb0, Stack.Push, Heap.set]
  have hmod : pushed env call .oMOD (counted s) = some (a % b) := by
    simp [pushed, execOp, withPopn, hpop2, hx2, hy2, hb0, Stack.Push, Heap.set]
  refine ⟨not_lt.mpr ha.2.le, not_lt.mpr hb.2.le, not_lt.mpr hq.2.le, not_lt.mpr hr.2.le,
    ?_, ?_, hsdiv, by rw [hsdiv, hdiv], hsmod, by rw [hsmod, hmod]⟩
  · exact hf1
  · have : foldSign s.heap x = s.heap := hf1
    rw [this]; exact hf2

/-- Witness of C18: the operands `2^256 - 4` and `2`, which a signed reading would take
for minus four and two. -/
theorem C18_sdiv_smod_equal_div_mod_witness :
    pushed sampleEnv noCall .oSDIV (counted (sampleState [0x05] 5000 [2 ^ 256 - 4, 2]))
        = pushed sampleEnv noCall .oDIV (counted (sampleState [0x05] 5000 [2 ^ 256 - 4, 2]))
      ∧ pushed sampleEnv noCall .oSMOD (counted (sampleState [0x05] 5000 [2 ^ 256 - 4, 2]))
        = pushed sampleEnv noCall .oMOD (counted (sampleState [0x05] 5000 [2 ^ 256 - 4, 2])) :=
  ⟨(C18_sdiv_smod_equal_div_mod sampleEnv noCall (sampleState [0x05] 5000 [2 ^ 256 - 4, 2])
      7 8 [] (2 ^ 256 - 4) 2 (by rfl) (by rfl) (by rfl) (by decide) (by decide)
      (by decide)).2.2.2.2.2.2.2.1,
   (C18_sdiv_smod_equal_div_mod sampleEnv noCall (sampleState [0x05] 5000 [2 ^ 256 - 4, 2])
      7 8 [] (2 ^ 256 - 4) 2 (by rfl) (by rfl) (by rfl) (by decide) (by decide)
      (by decide)).2.2.2.2.2.2.2.2.2⟩

/-! ## CALL into an existing contract -/

theorem Int64_of_small (o : Int) (h0 : 0 ≤ o) (h1 : o < 2 ^ 63) : Int64 o = o := by
  unfold Int64
  have hn : ((o.natAbs % 2 ^ 64 : Nat) : Int) = o := by
    have : o.natAbs < 2 ^ 64 := by omega
    rw [Nat.mod_eq_of_lt this]
    exact Int.natAbs_of_nonneg h0
  simp only [hn]
  rw [if_pos h1, if_neg (not_lt.mpr h0)]

theorem Result.returned_of_bytes (r : Result) (ret : List Nat) (h : r.bytes? = some ret) :
    ∃ why child, r = .returned why ret child ∧ r.final? = some child := by
  cases r with
  | returned w b c =>
      simp only [Result.bytes?, Option.some.injEq] at h
      subst h
      exact ⟨w, c, rfl, rfl⟩
  | panicked p => simp [Result.bytes?] at h
  | outOfFuel => simp [Result.bytes?] at h

/-- An iteration on `oCALL` whose seven operands are on the stack, whose target resolves to
the contract `obj` and whose child activation returns: the state the loop goes on with. -/
theorem call_step_eval (env : Env) (call : Closure → Heap → State → Result) (s : VmState)
    (retOffset retSize inOffset inSize value gas addr : Ref) (rest : Stack)
    (obj : Nat) (ret : List Nat) (io is ro rs : Nat) (why : Halt) (child : VmState)
    (hfetch : fetch env s = .oCALL) (hgas : fee ≤ s.gas)
    (hstack : s.stack
      = retOffset :: retSize :: inOffset :: inSize :: value :: gas :: addr :: rest)
    (hio : Int64 (s.heap.val inOffset) = (io : Int))
    (his : Int64 (s.heap.val inSize) = (is : Int))
    (hobj : GetContract s.state (s.heap.val addr) = some obj)
    (hcall : call { object := obj, callee := s.closure.object, Gas := gas, Value := value,
                    Args := Memory.Get s.mem io is } s.heap s.state
              = .returned why ret child)
    (hro2 : Int64 (child.heap.val retOffset) = (ro : Int))
    (hrs2 : Int64 (child.heap.val retSize) = (rs : Int)) :
    loopBody env call s
      = .next (pcAdd { counted s with mem := Memory.Set s.mem ro rs ret, stack := rest,
                                      heap := child.heap, state := child.state }) := by
  have hn1 : ¬ ((io : Int) < 0 ∨ (is : Int) < 0) := by omega
  have hn2 : ¬ ((ro : Int) < 0 ∨ (rs : Int) < 0) := by omega
  have hex : execOp env call .oCALL (counted s)
      = .next { counted s with mem := Memory.Set s.mem ro rs ret, stack := rest,
                               heap := child.heap, state := child.state } := by
    simp only [execOp, counted, withPopn, withPop, Stack.Popn, Stack.Pop, hstack, memGet, hio,
      his, hobj, callContract, if_neg hn1, Int.toNat_ofNat, hcall, memSet, hro2, hrs2,
      if_neg hn2]
  exact loopBody_next env call s _ hgas (by rw [hfetch]; exact hex)

/-- An iteration on `oCALL` whose seven operands are on the stack and whose target resolves
to the contract `obj`, stated on the `int64` values the code reads: the input offset and
size before the call, the return offset and size when the child has returned. -/
theorem call_step_frame (env : Env) (call : Closure → Heap → State → Result) (s : VmState)
    (retOffset retSize inOffset inSize value gas addr : Ref) (rest : Stack)
    (obj : Nat) (ret : List Nat) (io is ro rs : Nat)
    (hfetch : fetch env s = .oCALL) (hgas : fee ≤ s.gas)
    (hstack : s.stack
      = retOffset :: retSize :: inOffset :: inSize :: value :: gas :: addr :: rest)
    (hio : Int64 (s.heap.val inOffset) = (io : Int))
    (his : Int64 (s.heap.val inSize) = (is : Int))
    (hobj : GetContract s.state (s.heap.val addr) = some obj)
    (hret : (call { object := obj, callee := s.closure.object, Gas := gas, Value := value,
                    Args := Memory.Get s.mem io is } s.heap s.state).bytes? = some ret)
    (hro : ((call { object := obj, callee := s.closure.object, Gas := gas, Value := value,
                    Args := Memory.Get s.mem io is } s.heap s.state).valAfter
              retOffset).map Int64 = some (ro : Int))
    (hrs : ((call { object := obj, callee := s.closure.object, Gas := gas, Value := value,
                    Args := Memory.Get s.mem io is } s.heap s.state).valAfter
              retSize).map Int64 = some (rs : Int)) :
    ∃ s2, loopBody env call s = .next s2
      ∧ s2.stack = rest
      ∧ (∀ call2 : Closure → Heap → State → Result,
          call2 { object := obj, callee := s.closure.object, Gas := gas, Value := value,
                  Args := Memory.Get s.mem io is } s.heap s.state
            = call { object := obj, callee := s.closure.object, Gas := gas, Value := value,
                     Args := Memory.Get s.mem io is } s.heap s.state →
          loopBody env call2 s = .next s2)
      ∧ Memory.Get s2.mem ro rs = fit rs ret
      ∧ (∀ i, i < s.mem.length → (i < ro ∨ ro + rs ≤ i) → s2.mem.getD i 0 = s.mem.getD i 0)
      ∧ (∀ n c h st, RunClosure env (n + 1) c h st
            = RunLoop env (RunClosure env n) (n + 1) (initState c h st)
          ∧ (initState c h st).stack = [] ∧ (initState c h st).mem = []) := by
  obtain ⟨why, child, hcall, hfin⟩ := Result.returned_of_bytes _ ret hret
  have hro2 : Int64 (child.heap.val retOffset) = (ro : Int) := by
    simpa [Result.valAfter, hfin] using hro
  have hrs2 : Int64 (child.heap.val retSize) = (rs : Int) := by
    simpa [Result.valAfter, hfin] using hrs
  have hb := call_step_eval env call s retOffset retSize inOffset inSize value gas addr rest
    obj ret io is ro rs why child hfetch hgas hstack hio his hobj hcall hro2 hrs2
  refine ⟨_, hb, rfl, ?_, ?_, ?_, ?_⟩
  · intro call2 hagree
    exact call_step_eval env call2 s retOffset retSize inOffset inSize value gas addr rest
      obj ret io is ro rs why child hfetch hgas hstack hio his hobj (hagree.trans hcall)
      hro2 hrs2
  · exact Memory.Get_Set s.mem ro rs ret
  · intro i _ hout
    show (Memory.Set s.mem ro rs ret).getD i 0 = s.mem.getD i 0
    rw [Memory.getD_Set, if_neg (by omega)]
  · intro n c h st
    exact ⟨rfl, rfl, rfl⟩

/-- C14 (as amended): a `CALL` whose target address resolves to an existing contract `obj`
and whose input offset and size and return offset and size are Words below `2^63` (they
are read with `Int64`). The step removes exactly the seven operands from the parent's
stack and pushes none: the stack afterwards consists of the entries that were beneath
them. The child closure is handed the bytes of the parent's memory at
`[inOffset, inOffset + inSize)` as input (the step depends on the nested activation only
through its result on that closure), and an activation of `RunClosure` starts on an
empty stack and an empty memory of its own. When the child returns the bytes `ret` and
the return offset and size objects hold what they held, the parent's memory afterwards
holds `ret` zero-padded or truncated to `retSize` at `[retOffset, retOffset + retSize)`
and every other byte that was materialized before is unchanged. -/
theorem C14_call_frame (env : Env) (call : Closure → Heap → State → Result) (s : VmState)
    (retOffset retSize inOffset inSize value gas addr : Ref) (rest : Stack)
    (obj : Nat) (ret : List Nat) (io is ro rs : Int)
    (hfetch : fetch env s = .oCALL) (hgas : fee ≤ s.gas)
    (hstack : s.stack
      = retOffset :: retSize :: inOffset :: inSize :: value :: gas :: addr :: rest)
    (hio : s.heap.val inOffset = io) (his : s.heap.val inSize = is)
    (hro : s.heap.val retOffset = ro) (hrs : s.heap.val retSize = rs)
    (bio : 0 ≤ io ∧ io < 2 ^ 63) (bis : 0 ≤ is ∧ is < 2 ^ 63)
    (bro : 0 ≤ ro ∧ ro < 2 ^ 63) (brs : 0 ≤ rs ∧ rs < 2 ^ 63)
    (hobj : GetContract s.state (s.heap.val addr) = some obj)
    (hret : (call { object := obj, callee := s.closure.object, Gas := gas, Value := value,
                    Args := Memory.Get s.mem io.toNat is.toNat } s.heap s.state).bytes?
              = some ret)
    (hro2 : (call { object := obj, callee := s.closure.object, Gas := gas, Value := value,
                    Args := Memory.Get s.mem io.toNat is.toNat } s.heap s.state).valAfter
              retOffset = some (s.heap.val retOffset))
    (hrs2 : (call { object := obj, callee := s.closure.object, Gas := gas, Value := value,
                    Args := Memory.Get s.mem io.toNat is.toNat } s.heap s.state).valAfter
              retSize = some (s.heap.val retSize)) :
    ∃ s2, loopBody env call s = .next s2
      ∧ s2.stack = rest
      ∧ (∀ call2 : Closure → Heap → State → Result,
          call2 { object := obj, callee := s.closure.object, Gas := gas, Value := value,
                  Args := Memory.Get s.mem io.toNat is.toNat } s.heap s.state
            = call { object := obj, callee := s.closure.object, Gas := gas, Value := value,
                     Args := Memory.Get s.mem io.toNat is.toNat } s.heap s.state →
          loopBody env call2 s = .next s2)
      ∧ Memory.Get s2.mem ro.toNat rs.toNat = fit rs.toNat ret
      ∧ (∀ i, i < s.mem.length → (i < ro.toNat ∨ ro.toNat + rs.toNat ≤ i) →
          s2.mem.getD i 0 = s.mem.getD i 0)
      ∧ (∀ n c h st, RunClosure env (n + 1) c h st
            = RunLoop env (RunClosure env n) (n + 1) (initState c h st)
          ∧ (initState c h st).stack = [] ∧ (initState c h st).mem = []) := by
  have e1 : Int64 (s.heap.val inOffset) = ((io.toNat : Nat) : Int) := by
    rw [hio, Int64_of_small io bio.1 bio.2, Int.toNat_of_nonneg bio.1]
  have e2 : Int64 (s.heap.val inSize) = ((is.toNat : Nat) : Int) := by
    rw [his, Int64_of_small is bis.1 bis.2, Int.toNat_of_nonneg bis.1]
  have e3 : ((call { object := obj, callee := s.closure.object, Gas := gas, Value := value,
                     Args := Memory.Get s.mem io.toNat is.toNat } s.heap s.state).valAfter
              retOffset).map Int64 = some ((ro.toNat : Nat) : Int) := by
    rw [hro2, hro, Option.map_some', Int64_of_small ro bro.1 bro.2, Int.toNat_of_nonneg bro.1]
  have e4 : ((call { object := obj, callee := s.closure.object, Gas := gas, Value := value,
                     Args := Memory.Get s.mem io.toNat is.toNat } s.heap s.state).valAfter
              retSize).map Int64 = some ((rs.toNat : Nat) : Int) := by
    rw [hrs2, hrs, Option.map_some', Int64_of_small rs brs.1 brs.2, Int.toNat_of_nonneg brs.1]
  exact call_step_frame env call s retOffset retSize inOffset inSize value gas addr rest obj
    ret io.toNat is.toNat ro.toNat rs.toNat hfetch hgas hstack e1 e2 hobj hret e3 e4

/-- Witness of C14: contract 1 calls contract 2, whose code is scenario A and returns the
32-byte word 8; the parent asks for 32 bytes at offset 0. -/
theorem C14_call_frame_witness :
    ∃ s2, loopBody sampleEnv (RunClosure sampleEnv 8)
          (sampleStateIn (twoContracts [0x60] scenarioA) 5000 [2, 5000, 0, 0, 0, 32, 0])
        = .next s2
      ∧ s2.stack = []
      ∧ (∀ call2 : Closure → Heap → State → Result,
          call2 { object := 2, callee := (sampleStateIn (twoContracts [0x60] scenarioA) 5000
                    [2, 5000, 0, 0, 0, 32, 0]).closure.object, Gas := 8, Value := 9,
                  Args := Memory.Get (sampleStateIn (twoContracts [0x60] scenarioA) 5000
                    [2, 5000, 0, 0, 0, 32, 0]).mem (0 : Int).toNat (0 : Int).toNat }
              (sampleStateIn (twoContracts [0x60] scenarioA) 5000
                [2, 5000, 0, 0, 0, 32, 0]).heap
              (sampleStateIn (twoContracts [0x60] scenarioA) 5000
                [2, 5000, 0, 0, 0, 32, 0]).state
            = RunClosure sampleEnv 8
              { object := 2, callee := (sampleStateIn (twoContracts [0x60] scenarioA) 5000
                    [2, 5000, 0, 0, 0, 32, 0]).closure.object, Gas := 8, Value := 9,
                  Args := Memory.Get (sampleStateIn (twoContracts [0x60] scenarioA) 5000
                    [2, 5000, 0, 0, 0, 32, 0]).mem (0 : Int).toNat (0 : Int).toNat }
              (sampleStateIn (twoContracts [0x60] scenarioA) 5000
                [2, 5000, 0, 0, 0, 32, 0]).heap
              (sampleStateIn (twoContracts [0x60] scenarioA) 5000
                [2, 5000, 0, 0, 0, 32, 0]).state →
          loopBody sampleEnv call2 (sampleStateIn (twoContracts [0x60] scenarioA) 5000
            [2, 5000, 0, 0, 0, 32, 0]) = .next s2)
      ∧ Memory.Get s2.mem (0 : Int).toNat (32 : Int).toNat
          = fit (32 : Int).toNat (BigToBytes 8)
      ∧ (∀ i, i < (sampleStateIn (twoContracts [0x60] scenarioA) 5000
            [2, 5000, 0, 0, 0, 32, 0]).mem.length →
          (i < (0 : Int).toNat ∨ (0 : Int).toNat + (32 : Int).toNat ≤ i) →
          s2.mem.getD i 0 = (sampleStateIn (twoContracts [0x60] scenarioA) 5000
            [2, 5000, 0, 0, 0, 32, 0]).mem.getD i 0)
      ∧ (∀ n c h st, RunClosure sampleEnv (n + 1) c h st
            = RunLoop sampleEnv (RunClosure sampleEnv n) (n + 1) (initState c h st)
          ∧ (initState c h st).stack = [] ∧ (initState c h st).mem = []) :=
  C14_call_frame sampleEnv (RunClosure sampleEnv 8)
    (sampleStateIn (twoContracts [0x60] scenarioA) 5000 [2, 5000, 0, 0, 0, 32, 0])
    13 12 11 10 9 8 7 [] 2 (BigToBytes 8) 0 0 0 32
    (by decide) (by decide) (by rfl) (by rfl) (by rfl) (by rfl) (by rfl)
    (by decide) (by decide) (by decide) (by decide) (by decide) (by decide) (by decide)
    (by decide)

/-- C14 (counterexample): three calls of an existing contract on which the claim as stated
fails. (1) A return offset of `2^64 + 3` with return size 32: the 32 bytes returned by the
child are written at offset 3, the memory is 35 bytes long, and reading at `2^64 + 3`
yields zeros. (2) The parent `keepsValue` leaves the object it passes as call value on its
stack; the word reads 2 before the `CALL`, and 3 after the child `CALLVALUE, JUMP` has
run. (3) In the parent `offsetIsValue` the return offset, which reads 1 before the `CALL`,
is the object passed as call value; the child jumps to it, and its 32 returned bytes are
written at offset 11 while the bytes at offset 1 read zero. -/
theorem C14_call_disturbs_parent :
    ((loopBody sampleEnv (RunClosure sampleEnv 8)
        (sampleStateIn (twoContracts [0x60] scenarioA) 5000
          [2, 5000, 0, 0, 0, 32, 2 ^ 64 + 3])).next?.map
        (fun s => (Memory.Get s.mem 3 32, Memory.Get s.mem (2 ^ 64 + 3) 32, s.mem.length))
      = some (BigToBytes 8, List.replicate 32 0, 35)
      ∧ fit 32 (BigToBytes 8) ≠ List.replicate 32 0)
    ∧ ((RunClosure sampleEnv 40 sampleClosure (sampleHeap 100000)
        (twoContracts (keepsValue 0x00) jumpsToValue)).final?.map VmState.stackVals
          = some [0, 0, 0, 0, 2, 5000, 2, 2]
      ∧ (RunClosure sampleEnv 40 sampleClosure (sampleHeap 100000)
        (twoContracts (keepsValue 0x60) jumpsToValue)).final?.map VmState.stackVals
          = some [3])
    ∧ ((RunClosure sampleEnv 40 sampleClosure (sampleHeap 100000)
        (twoContracts (offsetIsValue 0x00) jumpsThenReturns)).final?.map VmState.stackVals
          = some [1, 32, 0, 0, 1, 5000, 2]
      ∧ (RunClosure sampleEnv 40 sampleClosure (sampleHeap 100000)
        (twoContracts (offsetIsValue 0x60) jumpsThenReturns)).final?.map
          (fun s => (Memory.Get s.mem 1 32, Memory.Get s.mem 11 32))
          = some (List.replicate 32 0, BigToBytes 7)
      ∧ fit 32 (BigToBytes 7) ≠ List.replicate 32 0) := by
  decide

/-! ## MSTORE and MLOAD -/

theorem foldl_cast (l : List Nat) (c : Nat) :
    List.foldl (fun (acc b : Int) => acc * 256 + b) (c : Int) (l.flatMap fun a => [(a : Int)])
      = ((l.foldl (fun acc b => acc * 256 + b) c : Nat) : Int) := by
  induction l generalizing c with
  | nil => rfl
  | cons b l ih =>
      simp only [List.flatMap_cons, List.singleton_append, List.foldl_cons]
      have : (c : Int) * 256 + (b : Int) = ((c * 256 + b : Nat) : Int) := by push_cast; rfl
      rw [this, ih]

theorem BigD_eq_cast (bytes : List Nat) :
    BigD bytes = ((bytes.foldl (fun acc b => acc * 256 + b) 0 : Nat) : Int) := by
  have h := foldl_cast bytes 0
  unfold BigD
  simp only [Nat.cast_zero] at h
  simpa using h

theorem digits_value (n v : Nat) :
    ((List.range n).map (fun i => v / 256 ^ (n - 1 - i) % 256)).foldl
      (fun acc b => acc * 256 + b) 0 = v % 256 ^ n := by
  induction n generalizing v with
  | zero => simp [Nat.mod_one]
  | succ n ih =>
      rw [List.range_succ, List.map_append, List.foldl_append]
      have hmap : (List.range n).map (fun i => v / 256 ^ (n + 1 - 1 - i) % 256)
          = (List.range n).map (fun i => (v / 256) / 256 ^ (n - 1 - i) % 256) := by
        apply List.map_congr_left
        intro i hi
        have hi2 : i < n := List.mem_range.mp hi
        have : n + 1 - 1 - i = (n - 1 - i) + 1 := by omega
        rw [this, pow_succ, Nat.div_div_eq_div_mul, mul_comm]
      rw [hmap, ih (v / 256)]
      simp only [List.map_cons, List.map_nil, List.foldl_cons, List.foldl_nil]
      have h0 : n + 1 - 1 - n = 0 := by omega
      rw [h0, pow_zero, Nat.div_one, pow_succ, mul_comm (256 ^ n) 256, Nat.mod_mul]
      ring

theorem BigD_BigToBytes (v : Int) (hv : isWord v) : BigD (BigToBytes v) = v := by
  rw [BigD_eq_cast]
  unfold BigToBytes
  have hd := digits_value 32 v.natAbs
  have hd2 : ((List.range 32).map (fun i => v.natAbs / 256 ^ (31 - i) % 256)).foldl
      (fun acc b => acc * 256 + b) 0 = v.natAbs % 256 ^ 32 := hd
  rw [hd2]
  have hlt : v.natAbs < 256 ^ 32 := by
    have h1 := hv.1
    have h2 := hv.2
    unfold Pow256 at h2
    zify
    rw [abs_of_nonneg h1]
    calc v < 2 ^ 256 := h2
      _ = 256 ^ 32 := by norm_num
  rw [Nat.mod_eq_of_lt hlt]
  exact Int.natAbs_of_nonneg hv.1

theorem fit_of_length (n : Nat) (d : List Nat) (h : d.length = n) : fit n d = d := by
  subst h
  unfold fit
  apply List.ext_getElem
  · simp
  · intro i h1 h2
    simp only [List.getElem_map, List.getElem_range, List.getD_eq_getElem?_getD]
    rw [List.getElem?_eq_getElem h2]
    rfl

/-- C19: `oMSTORE` with popped operands `(val, mStart)` holding the Word `v` and an offset
`o` with `0 <= o < 2^63` goes on with the two operands removed and leaves every byte
outside `[o, o + 32)` that was materialized before unchanged; in any state with the
resulting memory, `oMLOAD` with a popped offset holding `o` pushes exactly `v`. -/
theorem C19_mstore_mload_round_trip (env : Env) (call : Closure → Heap → State → Result)
    (s : VmState) (val mStart : Ref) (rest : Stack) (v o : Int)
    (hfetch : fetch env s = .oMSTORE) (hgas : fee ≤ s.gas)
    (hpop : Stack.Popn s.stack = .ok (val, mStart, rest))
    (hval : s.heap.val val = v) (hoff : s.heap.val mStart = o)
    (hv : isWord v) (ho0 : 0 ≤ o) (ho1 : o < 2 ^ 63) :
    ∃ s1, loopBody env call s = .next s1 ∧ s1.stack = rest
      ∧ (∀ i, i < s.mem.length → (i < o.toNat ∨ o.toNat + 32 ≤ i) →
          s1.mem.getD i 0 = s.mem.getD i 0)
      ∧ (∀ (t : VmState) (off : Ref) (rest2 : Stack), t.mem = s1.mem →
          Stack.Pop t.stack = .ok (off, rest2) → t.heap.val off = o →
          pushed env call .oMLOAD t = some v) := by
  have h64 : Int64 o = o := Int64_of_small o ho0 ho1
  have hneg : ¬ (o < 0 ∨ (32 : Int) < 0) := by omega
  have hpop2 : Stack.Popn (counted s).stack = .ok (val, mStart, rest) := hpop
  have hval2 : (counted s).heap.val val = v := hval
  have hoff2 : (counted s).heap.val mStart = o := hoff
  have hex : execOp env call .oMSTORE (counted s)
      = .next { counted s with mem := Memory.Set s.mem o.toNat 32 (BigToBytes v),
                               stack := rest } := by
    simp only [execOp, withPopn, hpop2, hval2, hoff2, h64, memSet, if_neg hneg]
    rfl
  have hb := loopBody_next env call s _ hgas (by rw [hfetch]; exact hex)
  refine ⟨_, hb, rfl, ?_, ?_⟩
  · intro i _ hout
    show (Memory.Set s.mem o.toNat 32 (BigToBytes v)).getD i 0 = s.mem.getD i 0
    rw [Memory.getD_Set, if_neg (by omega)]
  · intro t off rest2 hmem hpopt hot
    have hmem2 : t.mem = Memory.Set s.mem o.toNat 32 (BigToBytes v) := hmem
    have hlen : (BigToBytes v).length = 32 := by simp [BigToBytes]
    have hget : Memory.Get t.mem o.toNat 32 = BigToBytes v := by
      rw [hmem2, Memory.Get_Set, fit_of_length 32 _ hlen]
    have hget2 : Memory.Get t.mem o.toNat (32 : Int).toNat = BigToBytes v := hget
    simp only [pushed, execOp, withPop, hpopt, hot, h64, memGet, if_neg hneg, hget2,
      pushNew, Stack.Push, Heap.alloc, if_pos, BigD_BigToBytes v hv]

/-- Witness of C19: the Word `2^255 + 7` stored at offset 3. -/
theorem C19_mstore_mload_round_trip_witness :
    ∃ s1, loopBody sampleEnv noCall (sampleState [0x55] 5000 [2 ^ 255 + 7, 3]) = .next s1
      ∧ s1.stack = []
      ∧ (∀ i, i < (sampleState [0x55] 5000 [2 ^ 255 + 7, 3]).mem.length →
          (i < (3 : Int).toNat ∨ (3 : Int).toNat + 32 ≤ i) →
          s1.mem.getD i 0 = (sampleState [0x55] 5000 [2 ^ 255 + 7, 3]).mem.getD i 0)
      ∧ (∀ (t : VmState) (off : Ref) (rest2 : Stack), t.mem = s1.mem →
          Stack.Pop t.stack = .ok (off, rest2) → t.heap.val off = 3 →
          pushed sampleEnv noCall .oMLOAD t = some (2 ^ 255 + 7)) :=
  C19_mstore_mload_round_trip sampleEnv noCall (sampleState [0x55] 5000 [2 ^ 255 + 7, 3])
    7 8 [] (2 ^ 255 + 7) 3 (by decide) (by decide) (by rfl) (by rfl) (by rfl) (by decide)
    (by decide) (by decide)

/-! ## End-to-end runs -/

theorem sampleOpOf_push : sampleOpOf 0x50 = .oPUSH := by decide
theorem sampleOpOf_add : sampleOpOf 0x01 = .oADD := by decide
theorem sampleOpOf_mstore : sampleOpOf 0x55 = .oMSTORE := by decide
theorem sampleOpOf_return : sampleOpOf 0x61 = .oRETURN := by decide
theorem Int64_zero : Int64 0 = 0 := by decide
theorem Int64_32 : Int64 32 = 32 := by decide

theorem scenarioA_first_half (g : Int) (hg : fee ≤ g) (call : Closure → Heap → State → Result) :
    ∃ s4, (∀ k, RunLoop sampleEnv call (k + 4)
              (initState sampleClosure (sampleHeap g) (codeState scenarioA))
            = RunLoop sampleEnv call k s4)
      ∧ s4.closure = sampleClosure ∧ s4.state = codeState scenarioA ∧ s4.mem = []
      ∧ s4.stack = [9, 6] ∧ s4.pc = 5 ∧ s4.base = 6
      ∧ s4.heap.val 5 = 7 ∧ s4.heap.val 9 = 0 ∧ s4.heap.val 6 = 8 ∧ s4.heap.val 3 = g
      ∧ s4.heap.next = 10 := by
  have hg2 : ¬ (g < fee) := not_lt.mpr hg
  apply Exists.intro
  refine ⟨fun k => ?_, ?_⟩
  · simp [RunLoop, loopBody, initState, sampleClosure, sampleHeap, Heap.alloc,
      fetch, GetMem, codeState, scenarioA, sampleEnv, sampleOpOf_push, sampleOpOf_add, execOp, pushNew,
      Stack.Push, Heap.set, hg2, pcAdd, withPopn, Stack.Popn]
    rfl
  · simp [Pow256, sampleClosure, codeState, scenarioA]

theorem scenarioA_middle (g : Int) (hg : fee ≤ g) (call : Closure → Heap → State → Result)
    (s4 : VmState)
    (hc : s4.closure = sampleClosure) (hs : s4.state = codeState scenarioA) (hm : s4.mem = [])
    (hst : s4.stack = [9, 6]) (hpc : s4.pc = 5) (hbase : s4.base = 6)
    (h5 : s4.heap.val 5 = 7) (h9 : s4.heap.val 9 = 0) (h6 : s4.heap.val 6 = 8)
    (h3 : s4.heap.val 3 = g) (hn : s4.heap.next = 10) :
    ∃ s7, (∀ k, RunLoop sampleEnv call (k + 3) s4 = RunLoop sampleEnv call k s7)
      ∧ s7.closure = sampleClosure ∧ s7.state = codeState scenarioA
      ∧ s7.mem = Memory.Set [] 0 32 (BigToBytes 8)
      ∧ s7.stack = [11, 10] ∧ s7.pc = 5
      ∧ s7.heap.val 5 = 12 ∧ s7.heap.val 11 = 0 ∧ s7.heap.val 10 = 32 ∧ s7.heap.val 3 = g := by
  have hg2 : ¬ (g < fee) := not_lt.mpr hg
  obtain ⟨closure, mem, stack, pc, step, base, ⟨val, next⟩, state⟩ := s4
  simp only at hc hs hm hst hpc hbase h5 h9 h6 h3 hn
  subst hc hs hm hst hpc hbase hn
  apply Exists.intro
  refine ⟨fun k => ?_, ?_⟩
  · simp [RunLoop, loopBody, sampleClosure, Heap.alloc,
      fetch, GetMem, codeState, scenarioA, sampleEnv, sampleOpOf_push, sampleOpOf_mstore, execOp, pushNew,
      Stack.Push, Heap.set, hg2, pcAdd, withPopn, Stack.Popn, h5, h9, h6, h3, memSet,
      Int64_zero]
    rfl
  · simp [sampleClosure, codeState, scenarioA, h3]

theorem scenarioA_return (g : Int) (hg : fee ≤ g) (call : Closure → Heap → State → Result)
    (s7 : VmState) (k : Nat)
    (hc : s7.closure = sampleClosure) (hs : s7.state = codeState scenarioA)
    (hm : s7.mem = Memory.Set [] 0 32 (BigToBytes 8))
    (hst : s7.stack = [11, 10]) (hpc : s7.pc = 5)
    (h5 : s7.heap.val 5 = 12) (h11 : s7.heap.val 11 = 0) (h10 : s7.heap.val 10 = 32)
    (h3 : s7.heap.val 3 = g) :
    (RunLoop sampleEnv call (k + 1) s7).bytes? = some (BigToBytes 8)
      ∧ (RunLoop sampleEnv call (k + 1) s7).why? = some .ret := by
  have hg2 : ¬ (g < fee) := not_lt.mpr hg
  obtain ⟨closure, mem, stack, pc, step, base, ⟨val, next⟩, state⟩ := s7
  simp only at hc hs hm hst hpc h5 h11 h10 h3
  subst hc hs hm hst hpc
  have hmem : Memory.Get (Memory.Set [] 0 32 (BigToBytes 8)) 0 32 = BigToBytes 8 := by decide
  simp [RunLoop, loopBody, sampleClosure,
      fetch, GetMem, codeState, scenarioA, sampleEnv, sampleOpOf_return, execOp,
      hg2, withPopn, Stack.Popn, h5, h11, h10, h3, memGet,
      Int64_zero, Int64_32, Result.bytes?, Result.why?, hmem]

theorem scenarioA_returns_eight (g : Int) (n : Nat) (hg : fee ≤ g) (hn : 8 ≤ n) :
    (RunClosure sampleEnv n sampleClosure (sampleHeap g) (codeState scenarioA)).bytes?
        = some (BigToBytes 8)
      ∧ (RunClosure sampleEnv n sampleClosure (sampleHeap g) (codeState scenarioA)).why?
        = some .ret := by
  obtain ⟨m, rfl⟩ : ∃ m, n = m + 8 := ⟨n - 8, by omega⟩
  obtain ⟨s4, e4, p1, p2, p3, p4, p5, p6, p7, p8, p9, p10, p11⟩ :=
    scenarioA_first_half g hg (RunClosure sampleEnv (m + 7))
  obtain ⟨s7, e7, q1, q2, q3, q4, q5, q6, q7, q8, q9⟩ :=
    scenarioA_middle g hg (RunClosure sampleEnv (m + 7)) s4 p1 p2 p3 p4 p5 p6 p7 p8 p9 p10 p11
  have hfin := scenarioA_return g hg (RunClosure sampleEnv (m + 7)) s7 m q1 q2 q3 q4 q5 q6 q7
    q8 q9
  have hrun : RunClosure sampleEnv (m + 8) sampleClosure (sampleHeap g) (codeState scenarioA)
      = RunLoop sampleEnv (RunClosure sampleEnv (m + 7)) (m + 1) s7 := by
    show RunLoop sampleEnv (RunClosure sampleEnv (m + 7)) (m + 4 + 4) _ = _
    rw [e4 (m + 4)]
    show RunLoop sampleEnv (RunClosure sampleEnv (m + 7)) (m + 1 + 3) _ = _
    rw [e7 (m + 1)]
  rw [hrun]
  exact hfin

/-- C11: scenario A. `RunClosure` on the code `PUSH 5, PUSH 3, ADD, PUSH 0, MSTORE,
PUSH 32, PUSH 0, RETURN` of the sample closure, started (as every activation is) with
program counter 0, empty stack and empty memory, with any gas of at least the fee and
fuel for eight iterations, returns through `oRETURN` exactly one 32-byte word, the
big-endian encoding of 8. -/
theorem C11_scenario_A_returns_eight (g : Int) (n : Nat) (hg : fee ≤ g) (hn : 8 ≤ n) :
    (RunClosure sampleEnv n sampleClosure (sampleHeap g) (codeState scenarioA)).bytes?
        = some (BigToBytes 8)
      ∧ (RunClosure sampleEnv n sampleClosure (sampleHeap g) (codeState scenarioA)).why?
        = some .ret
      ∧ BigToBytes 8 = List.replicate 31 0 ++ [8]
      ∧ BigD (BigToBytes 8) = 8
      ∧ (initState sampleClosure (sampleHeap g) (codeState scenarioA)).pcVal = 0
      ∧ (initState sampleClosure (sampleHeap g) (codeState scenarioA)).stack = []
      ∧ (initState sampleClosure (sampleHeap g) (codeState scenarioA)).mem = [] := by
  have h := scenarioA_returns_eight g n hg hn
  exact ⟨h.1, h.2, by decide, by decide, rfl, rfl, rfl⟩

/-- Witness of C11: gas exactly 1000 and fuel 8. -/
theorem C11_scenario_A_returns_eight_witness :
    (RunClosure sampleEnv 8 sampleClosure (sampleHeap 1000) (codeState scenarioA)).bytes?
        = some (BigToBytes 8)
      ∧ (RunClosure sampleEnv 8 sampleClosure (sampleHeap 1000) (codeState scenarioA)).why?
        = some .ret :=
  ⟨(C11_scenario_A_returns_eight 1000 8 (by decide) (by decide)).1,
   (C11_scenario_A_returns_eight 1000 8 (by decide) (by decide)).2.1⟩

theorem loopBody_advance (env : Env) (call : Closure → Heap → State → Result) (s : VmState)
    (hgas : fee ≤ s.gas)
    (h : (execOp env call (fetch env s) (counted s)).next?.isSome = true) :
    loopBody env call s = .next (advance env call s) := by
  cases hex : execOp env call (fetch env s) (counted s) with
  | next s2 =>
      have := loopBody_next env call s s2 hgas hex
      simp only [advance, hex]
      exact this
  | halted why b s2 => rw [hex] at h; simp [Outcome.next?] at h
  | panic p => rw [hex] at h; simp [Outcome.next?] at h
  | outOfFuel => rw [hex] at h; simp [Outcome.next?] at h

theorem spin_two_steps (call : Closure → Heap → State → Result) (s : VmState)
    (h : spinInv s) :
    ∃ s1 s2, loopBody sampleEnv call s = .next s1 ∧ loopBody sampleEnv call s1 = .next s2
      ∧ spinInv s2 := by
  obtain ⟨hobj, hgasref, h1, h2, h3, hfee, hnext, hpc3, hpcn, hpcv⟩ := h
  have hpcne : s.pc ≠ s.heap.next := Nat.ne_of_lt hpcn
  have h3ne : (3 : Nat) ≠ s.heap.next := Nat.ne_of_lt hnext
  have hf1 : fetch sampleEnv s = .oPUSH := by
    simp [fetch, GetMem, hobj, hpcv, h1, sampleEnv, sampleOpOf]
  have hg1 : fee ≤ s.gas := by simp [VmState.gas, hgasref, hfee]
  have e1 : execOp sampleEnv call (fetch sampleEnv s) (counted s)
      = .next (pushNew { counted s with heap := s.heap.set s.pc (s.heap.val s.pc + 1) }
          s.stack (s.state.storage 1 2)) := by
    rw [hf1]
    simp [execOp, counted, GetMem, Heap.set, hobj, hpcv]
  have b1 := loopBody_next sampleEnv call s _ hg1 e1
  generalize hsA : pcAdd (pushNew
      { counted s with heap := s.heap.set s.pc (s.heap.val s.pc + 1) }
      s.stack (s.state.storage 1 2)) = sA at b1
  have fclo : sA.closure = s.closure := by rw [← hsA]; rfl
  have fst : sA.state = s.state := by rw [← hsA]; rfl
  have fpc : sA.pc = s.pc := by rw [← hsA]; rfl
  have fstack : sA.stack = s.heap.next :: s.stack := by rw [← hsA]; rfl
  have fnext : sA.heap.next = s.heap.next + 1 := by rw [← hsA]; rfl
  have fvpc : sA.heap.val s.pc = 3 := by
    rw [← hsA]
    simp [pcAdd, pushNew, Heap.alloc, Heap.set, counted, hpcv, hpcne]
  have fvnew : sA.heap.val s.heap.next = 0 := by
    rw [← hsA]
    simp [pcAdd, pushNew, Heap.alloc, Heap.set, counted, hpcv, hpcne, hpcne.symm, h2]
  have fvgas : sA.heap.val 3 = s.heap.val 3 := by
    rw [← hsA]
    simp [pcAdd, pushNew, Heap.alloc, Heap.set, counted, hpcv, hpcne, h3ne, hpc3.symm]
  have hf2 : fetch sampleEnv sA = .oJUMP := by
    simp [fetch, GetMem, fclo, fst, fpc, hobj, fvpc, h3, sampleEnv, sampleOpOf]
  have hg2 : fee ≤ sA.gas := by simp [VmState.gas, fclo, hgasref, fvgas, hfee]
  have hpop : Stack.Pop sA.stack = .ok (s.heap.next, s.stack) := by rw [fstack]; rfl
  have hpop2 : Stack.Pop (counted sA).stack = .ok (s.heap.next, s.stack) := hpop
  have e2 : execOp sampleEnv call (fetch sampleEnv sA) (counted sA)
      = .next { counted sA with pc := s.heap.next, stack := s.stack } := by
    rw [hf2]; simp only [execOp, withPop, hpop2]
  have b2 := loopBody_next sampleEnv call sA _ hg2 e2
  refine ⟨sA, _, b1, b2, ?_⟩
  refine ⟨?_, ?_, ?_, ?_, ?_, ?_, ?_, ?_, ?_, ?_⟩
  · exact hobj ▸ congrArg Closure.object fclo
  · exact hgasref ▸ congrArg Closure.Gas fclo
  · show sA.state.storage 1 1 = 0x50
    rw [fst]; exact h1
  · show sA.state.storage 1 2 = 0
    rw [fst]; exact h2
  · show sA.state.storage 1 3 = 0x59
    rw [fst]; exact h3
  · show fee ≤ (sA.heap.set s.heap.next (sA.heap.val s.heap.next + 1)).val 3
    simp [Heap.set, h3ne, fvgas, hfee]
  · show 3 < sA.heap.next
    rw [fnext]; exact Nat.lt_succ_of_lt hnext
  · show s.heap.next ≠ 3
    exact h3ne.symm
  · show s.heap.next < sA.heap.next
    rw [fnext]; exact Nat.lt_succ_self _
  · show (sA.heap.set s.heap.next (sA.heap.val s.heap.next + 1)).val s.heap.next = 1
    simp [Heap.set, fvnew]

theorem spin_forever (call : Closure → Heap → State → Result) :
    ∀ (n : Nat) (s : VmState), spinInv s →
      RunLoop sampleEnv call n s = .outOfFuel
        ∧ RunLoop sampleEnv call (n + 1) s = .outOfFuel := by
  intro n
  induction n with
  | zero =>
      intro s h
      obtain ⟨s1, s2, b1, _, _⟩ := spin_two_steps call s h
      exact ⟨rfl, by simp [RunLoop, b1]⟩
  | succ k ih =>
      intro s h
      obtain ⟨s1, s2, b1, b2, h2⟩ := spin_two_steps call s h
      refine ⟨(ih s h).2, ?_⟩
      have := (ih s2 h2).1
      simp [RunLoop, b1, b2, this]

theorem spin_start (g : Int) (hg : fee ≤ g) (call : Closure → Heap → State → Result) :
    ∃ s1, loopBody sampleEnv call (initState sampleClosure (sampleHeap g) (codeState spinCode))
        = .next s1 ∧ spinInv s1 := by
  refine ⟨_, loopBody_advance sampleEnv call _ hg rfl, ?_⟩
  simp [spinInv, advance, counted, initState, sampleClosure, sampleHeap, Heap.alloc,
    fetch, GetMem, codeState, spinCode, sampleEnv, sampleOpOf, execOp, pushNew, Stack.Push,
    Heap.set, pcAdd, Memory.Len, hg]

/-- The run of `spinCode` never ends, whatever gas of at least the fee it is given. -/
theorem spin_runs_forever (g : Int) (hg : fee ≤ g) (n : Nat) :
    RunClosure sampleEnv n sampleClosure (sampleHeap g) (codeState spinCode) = .outOfFuel := by
  cases n with
  | zero => rfl
  | succ k =>
      obtain ⟨s1, b, h⟩ := spin_start g hg (RunClosure sampleEnv k)
      have := (spin_forever (RunClosure sampleEnv k) k s1 h).1
      simp [RunClosure, RunLoop, b, this]


/-- C12 (evaluation of the code at the failing input): the code `MSIZE, PUSH 0, JUMP`,
which contains no `oCALL`, run with gas 1000 does not terminate: whatever the fuel `n`,
the loop is still running after `n` iterations, although `floor(1000 / 1000)` is 1. The
jump lands in slot 1 each time and the gas is never reduced. -/
theorem C12_loop_runs_forever_on_finite_gas (n : Nat) :
    RunClosure sampleEnv n sampleClosure (sampleHeap 1000) (codeState spinCode)
      = .outOfFuel :=
  spin_runs_forever 1000 (by decide) n

/-- C20 (evaluation of the code at the failing input): after `PUSH 1, PUSH 2, ADD` the
stack reads 3; after the whole code `PUSH 1, PUSH 2, ADD, PUSH 3, PUSH 4, ADD` it reads 7
beneath 7, not 3 beneath 7: both entries are the one accumulator object `base` (object 6),
which the second addition has overwritten. -/
theorem C20_second_add_overwrites_first :
    (RunClosure sampleEnv 9 sampleClosure (sampleHeap 100000)
        (codeState [0x50, 1, 0x50, 2, 0x01, 0x00])).final?.map VmState.stackVals = some [3]
      ∧ (RunClosure sampleEnv 9 sampleClosure (sampleHeap 100000)
        (codeState twoAdds)).final?.map VmState.stackVals = some [7, 7]
      ∧ (RunClosure sampleEnv 9 sampleClosure (sampleHeap 100000)
        (codeState twoAdds)).final?.map VmState.stack = some [6, 6]
      ∧ (RunClosure sampleEnv 9 sampleClosure (sampleHeap 100000)
        (codeState twoAdds)).final?.map VmState.base = some 6 := by
  decide

end Ethchain
